import Mathlib

/-!
Verification development for the device polling / offline buffering core of
the RaftCore repository.

The C++ sources are embedded shallowly:
* `OfflineDataStore` (RAM ring buffer, `OfflineDataStore.h`) becomes `ODSState`
  with pure operations `init`, `put`, `get`, `consume`, `clear`, `getStats`.
  The flat byte buffer `_ringBuffer` (size `maxEntries * payloadSize`, always
  accessed one whole payload slot at a time at offset `headIdx * payloadSize`)
  is represented slot-wise as a list of payloads.
* `BusAddrStatus` (`BusAddrStatus.cpp/h`) becomes `BusAddrStatus` with
  `handleResponding`.  The C++ field `count` is an `int8_t` that is compared
  against the `uint32_t` parameters `okMax` and `-failMax`; following the
  usual arithmetic conversions on a 32-bit-int target, both operands are
  converted to unsigned 32-bit values before comparing.  The embedding keeps
  these conversions explicit (`u32OfI8`, `u32Neg`, reduction `% U32LIM`)
  and wraps `int8_t` assignments with `i8OfInt`.
* `DeviceStatus` (`DeviceStatus.cpp/h`) becomes `DeviceStatusModel` with
  `storePollResults`.  The helpers `DevicePollingInfo.recordPartialPollResult`
  and `getPartialPollResultsAndClear` and the aggregator sink are not among
  the sources and are modelled from the specification (marked below).
* `OfflineDataStoreNVS` (`OfflineDataStoreNVS.cpp/h`) becomes `NvsStoreModel`
  with `appendBatch`, `importTo`, `resetMetaFields`.  The NVS key-value layer
  is modelled as an ideal store: blobs are kept in an association list keyed
  by segment index (the key string `s%05u` is injective in the index), the
  meta blob read/written by `loadMeta`/`saveMeta` mirrors the in-RAM `_meta`,
  and writes/commits succeed.

Machine integers are `Nat` with explicit reductions modulo `2 ^ 32` / `2 ^ 64`
at the points where the C++ code can overflow.
-/

def U16LIM : Nat := 2 ^ 16

def U32LIM : Nat := 2 ^ 32

def U64LIM : Nat := 2 ^ 64

/-- A payload byte list is valid when every element is an actual byte value,
as guaranteed by `std::vector<uint8_t>` in the C++ sources. -/
def ValidBytes (data : List Nat) : Prop := ∀ x ∈ data, x < 256

instance (data : List Nat) : Decidable (ValidBytes data) :=
  inferInstanceAs (Decidable (∀ x ∈ data, x < 256))

/-- Timestamp extraction at the start of `OfflineDataStore::put` / `::get`:
big-endian over the first `timestampBytes` bytes, stored into a `uint16_t`
(so the 4-byte case keeps only the low 16 bits, i.e. payload bytes 2 and 3). -/
def extractTimestampVal (timestampBytes : Nat) (data : List Nat) : Nat :=
  if timestampBytes = 1 then data.headD 0
  else if timestampBytes = 2 then data.headD 0 * 256 + data.getD 1 0
  else if timestampBytes = 4 then data.getD 2 0 * 256 + data.getD 3 0
  else 0

/-- `OfflineDataMeta` from `OfflineDataStore.h`. -/
structure OfflineDataMeta where
  seq : Nat
  ts : Nat
  tsBaseMs : Nat
  deriving DecidableEq, Repr

/-- `OfflineDataStats` from `OfflineDataStore.h`. -/
structure OfflineDataStats where
  depth : Nat := 0
  drops : Nat := 0
  maxEntries : Nat := 0
  payloadSize : Nat := 0
  metaSize : Nat := 0
  tsWrapCount : Nat := 0
  firstSeq : Nat := 0
  timestampBytes : Nat := 0
  timestampResolutionUs : Nat := 0
  oldestCaptureMs : Nat := 0
  deriving DecidableEq, Repr

/-- State of one `OfflineDataStore` (RAM ring).  `ringBuffer` holds one list
entry per payload slot (the C++ flat buffer is only ever read and written in
whole `payloadSize`-sized slots). -/
structure ODSState where
  ringBuffer : List (List Nat)
  adjTimestampMs : List Nat
  headIdx : Nat
  count : Nat
  maxEntries : Nat
  payloadSize : Nat
  timestampBytes : Nat
  timestampResolutionUs : Nat
  timestampWrapMs : Nat
  timestampBaseMs : Nat
  lastTimestampVal : Nat
  lastTimestampValid : Bool
  drops : Nat
  tsWrapCount : Nat
  nextSeq : Nat
  deriving DecidableEq, Repr

/-- The default-constructed `OfflineDataStore`. -/
def ODSState.initial : ODSState :=
  { ringBuffer := [], adjTimestampMs := [], headIdx := 0, count := 0,
    maxEntries := 0, payloadSize := 0, timestampBytes := 0,
    timestampResolutionUs := 0, timestampWrapMs := 0, timestampBaseMs := 0,
    lastTimestampVal := 0, lastTimestampValid := false, drops := 0,
    tsWrapCount := 0, nextSeq := 0 }

/-- `OfflineDataStore::isConfigured`. -/
def ODSState.configuredP (s : ODSState) : Prop :=
  0 < s.maxEntries ∧ 0 < s.payloadSize

instance (s : ODSState) : Decidable s.configuredP :=
  inferInstanceAs (Decidable (0 < s.maxEntries ∧ 0 < s.payloadSize))

/-- `OfflineDataStore::init`. -/
def ODSState.init (maxEntries payloadSize timestampBytes timestampResolutionUs : Nat) :
    ODSState :=
  { ringBuffer := List.replicate maxEntries (List.replicate payloadSize 0),
    adjTimestampMs := List.replicate maxEntries 0,
    headIdx := 0, count := 0,
    maxEntries := maxEntries, payloadSize := payloadSize,
    timestampBytes := timestampBytes,
    timestampResolutionUs := timestampResolutionUs,
    timestampWrapMs := 2 ^ (timestampBytes * 8) % U64LIM * (timestampResolutionUs / 1000) % U64LIM,
    timestampBaseMs := 0, lastTimestampVal := 0, lastTimestampValid := false,
    drops := 0, tsWrapCount := 0, nextSeq := 0 }

/-- `OfflineDataStore::clear` — resets counters, keeps configuration and the
allocated storage contents. -/
def ODSState.clear (s : ODSState) : ODSState :=
  { s with headIdx := 0, count := 0, drops := 0, tsWrapCount := 0,
           lastTimestampValid := false, timestampBaseMs := 0,
           lastTimestampVal := 0, nextSeq := 0 }

/-- The 64-bit adjusted timestamp `OfflineDataStore::put` computes before
truncation to the `uint32_t` side array, written without the (unreachable
below `2 ^ 64`) reductions so the truncation step is explicit in theorems. -/
def ODSState.putAdjustedTsMs (s : ODSState) (timeNowUs : Nat) (data : List Nat) : Nat :=
  let tsVal := extractTimestampVal s.timestampBytes data
  let timeNowMs := timeNowUs / 1000
  let tsResolutionMs := s.timestampResolutionUs / 1000
  let base0 :=
    if s.lastTimestampValid then s.timestampBaseMs
    else if 0 < tsResolutionMs ∧ tsVal * tsResolutionMs < timeNowMs then
      timeNowMs - tsVal * tsResolutionMs
    else 0
  let base1 :=
    if s.lastTimestampValid ∧ tsVal < s.lastTimestampVal then
      base0 + s.timestampWrapMs
    else base0
  base1 + tsVal * tsResolutionMs

/-- `OfflineDataStore::put`. -/
def ODSState.put (s : ODSState) (timeNowUs seq : Nat) (data : List Nat) :
    Bool × ODSState :=
  if ¬ s.configuredP ∨ data.length ≠ s.payloadSize then (false, s)
  else
    let tsVal := extractTimestampVal s.timestampBytes data
    let timeNowMs := timeNowUs / 1000
    let tsResolutionMs := s.timestampResolutionUs / 1000
    let base0 :=
      if s.lastTimestampValid then s.timestampBaseMs
      else if 0 < tsResolutionMs ∧ tsVal * tsResolutionMs < timeNowMs then
        timeNowMs - tsVal * tsResolutionMs
      else 0
    let isWrap := s.lastTimestampValid ∧ tsVal < s.lastTimestampVal
    let base1 := if isWrap then (base0 + s.timestampWrapMs) % U64LIM else base0
    let wrapCount1 := if isWrap then (s.tsWrapCount + 1) % U32LIM else s.tsWrapCount
    let adjustedTsMs := (base1 + tsVal * tsResolutionMs) % U64LIM
    let count1 := if s.count < s.maxEntries then s.count + 1 else s.count
    let drops1 := if s.count < s.maxEntries then s.drops else (s.drops + 1) % U32LIM
    (true,
      { s with
        ringBuffer := s.ringBuffer.set s.headIdx data,
        adjTimestampMs := s.adjTimestampMs.set s.headIdx (adjustedTsMs % U32LIM),
        headIdx := (s.headIdx + 1) % s.maxEntries,
        count := count1, drops := drops1,
        timestampBaseMs := base1,
        lastTimestampVal := tsVal, lastTimestampValid := true,
        tsWrapCount := wrapCount1,
        nextSeq := (seq + 1) % U32LIM })

/-- Physical slot of the logical entry `i` (0 = oldest), as computed for
`tailIdx` in `OfflineDataStore::get` / `::getStats`. -/
def ODSState.entrySlot (s : ODSState) (i : Nat) : Nat :=
  (s.headIdx + s.maxEntries - s.count + i) % s.maxEntries

/-- Payload bytes of logical entry `i`. -/
def ODSState.entryPayload (s : ODSState) (i : Nat) : List Nat :=
  s.ringBuffer.getD (s.entrySlot i) []

/-- Stored (truncated) adjusted timestamp of logical entry `i`. -/
def ODSState.entryAdj (s : ODSState) (i : Nat) : Nat :=
  s.adjTimestampMs.getD (s.entrySlot i) 0

/-- The metadata record `OfflineDataStore::get` builds for output index `i`
(logical entry `startIdx + i`). -/
def ODSState.getMeta (s : ODSState) (seqStart startIdx i : Nat) : OfflineDataMeta :=
  let p := s.entryPayload (startIdx + i)
  let ts := extractTimestampVal s.timestampBytes p
  let tsResolutionMs := s.timestampResolutionUs / 1000
  let adj := s.entryAdj (startIdx + i)
  { seq := seqStart + i, ts := ts,
    tsBaseMs := if ts * tsResolutionMs ≤ adj then adj - ts * tsResolutionMs else 0 }

/-- `OfflineDataStore::get`.  Returns the number of responses, the
concatenated payload bytes, the metadata list and the new state.  The
`responseSize` out-parameter always equals `payloadSize` and is omitted. -/
def ODSState.get (s : ODSState) (maxResponsesToReturn : Nat) (consumeEntries : Bool)
    (startIdxIn maxBytes : Nat) : Nat × List Nat × List OfflineDataMeta × ODSState :=
  if ¬ s.configuredP then (0, [], [], s)
  else
    let startIdx := if consumeEntries ∧ 0 < startIdxIn then 0 else startIdxIn
    if s.count = 0 ∨ s.count ≤ startIdx then (0, [], [], s)
    else
      let available := s.count - startIdx
      let numResponses0 :=
        if maxResponsesToReturn = 0 ∨ available < maxResponsesToReturn then available
        else maxResponsesToReturn
      let numResponses :=
        if 0 < maxBytes ∧ maxBytes / (s.payloadSize + 4) < numResponses0 then
          maxBytes / (s.payloadSize + 4)
        else numResponses0
      if numResponses = 0 then (0, [], [], s)
      else
        let seqStart :=
          if s.count < s.nextSeq then s.nextSeq - s.count + startIdx else startIdx
        let outData := ((List.range numResponses).map
          (fun i => s.entryPayload (startIdx + i))).flatten
        let metas := (List.range numResponses).map (s.getMeta seqStart startIdx)
        (numResponses, outData, metas,
          if consumeEntries then { s with count := s.count - numResponses } else s)

/-- `OfflineDataStore::consume`. -/
def ODSState.consume (s : ODSState) (numResponses : Nat) : Bool × ODSState :=
  if ¬ s.configuredP then (false, s)
  else
    let n := if s.count < numResponses then s.count else numResponses
    (true, { s with count := s.count - n })

/-- `OfflineDataStore::getStats`. -/
def ODSState.getStats (s : ODSState) : OfflineDataStats :=
  if ¬ s.configuredP then {}
  else
    { depth := s.count, drops := s.drops, maxEntries := s.maxEntries,
      payloadSize := s.payloadSize, metaSize := 4, tsWrapCount := s.tsWrapCount,
      timestampBytes := s.timestampBytes,
      timestampResolutionUs := s.timestampResolutionUs,
      firstSeq := if s.count < s.nextSeq then s.nextSeq - s.count else 0,
      oldestCaptureMs := if 0 < s.count then s.entryAdj 0 else 0 }

/-! ## BusAddrStatus (address liveness hysteresis) -/

/-- `DeviceOnlineState` from `BusAddrStatus.h`. -/
inductive DeviceOnlineState where
  | initialState
  | online
  | offline
  deriving DecidableEq, Repr

/-- Conversion applied when the `int8_t` field `count` meets a `uint32_t` in a
comparison: integer promotion to `int` (sign extension) followed by conversion
to `unsigned int`, i.e. reduction of the mathematical value modulo `2 ^ 32`. -/
def u32OfI8 (c : Int) : Nat := (c % (U32LIM : Int)).toNat

/-- Value of `-x` for a `uint32_t` operand `x` (wraps modulo `2 ^ 32`). -/
def u32Neg (x : Nat) : Nat := (U32LIM - x % U32LIM) % U32LIM

/-- Result of storing an `int` value into the `int8_t` field `count`
(conversion is modulo 256 into `[-128, 127]`). -/
def i8OfInt (v : Int) : Int := (v + 128) % 256 - 128

/-- The `BusAddrStatus` fields read or written by `handleResponding`. -/
structure BusAddrStatus where
  count : Int
  isChange : Bool
  isOnline : Bool
  wasOnceOnline : Bool
  flagForDeletion : Bool
  onlineState : DeviceOnlineState
  deriving DecidableEq, Repr

/-- A freshly created record in the Initial state. -/
def BusAddrStatus.initialStatus : BusAddrStatus :=
  { count := 0, isChange := false, isOnline := false, wasOnceOnline := false,
    flagForDeletion := false, onlineState := .initialState }

/-- `BusAddrStatus::handleResponding`.  Returns
`(statusChanged, flagSpuriousRecord, newState)`; `flagSpuriousRecord` is an
in/out reference in C++, written only on the spurious transition, so the
caller-supplied value is passed in and echoed back unless overwritten.
The comparisons `count < okMax`, `count >= okMax`, `count < -failMax` and
`count <= -failMax` are performed after conversion of both sides to
`uint32_t` exactly as in the C++ (see `u32OfI8`). -/
def BusAddrStatus.handleResponding (s : BusAddrStatus) (isResponding : Bool)
    (flagSpuriousRecord : Bool) (okMax failMax : Nat) :
    Bool × Bool × BusAddrStatus :=
  if isResponding then
    if ¬ s.isOnline then
      let c := if u32OfI8 s.count < okMax % U32LIM then i8OfInt (s.count + 1) else s.count
      if okMax % U32LIM ≤ u32OfI8 c then
        (true, flagSpuriousRecord,
          { s with count := 0, isChange := !s.isChange, isOnline := true,
                   onlineState := .online, wasOnceOnline := true,
                   flagForDeletion := false })
      else (false, flagSpuriousRecord, { s with count := c })
    else (false, flagSpuriousRecord, s)
  else
    if s.isOnline ∨ ¬ s.wasOnceOnline ∨ s.flagForDeletion then
      let c := if u32OfI8 s.count < u32Neg failMax then s.count else i8OfInt (s.count - 1)
      if u32OfI8 c ≤ u32Neg failMax then
        let spurious := ¬ s.wasOnceOnline ∨ s.flagForDeletion
        (true, if spurious then true else flagSpuriousRecord,
          { s with count := 0,
                   isChange := if spurious then s.isChange else !s.isChange,
                   isOnline := false, onlineState := .offline,
                   flagForDeletion := true })
      else (false, flagSpuriousRecord, { s with count := c })
    else (false, flagSpuriousRecord, s)

/-- `n` successive `handleResponding isResponding` calls (discarding the
returned flags), used to express claims about call sequences. -/
def BusAddrStatus.applyResponding (s : BusAddrStatus) (isResponding : Bool)
    (okMax failMax : Nat) : Nat → BusAddrStatus
  | 0 => s
  | n + 1 =>
    ((s.applyResponding isResponding okMax failMax n).handleResponding
        isResponding false okMax failMax).2.2

/-! ## DeviceStatus (poll result assembly and offline buffering) -/

/-- The `DevicePollingInfo` fields used by `DeviceStatus::storePollResults`. -/
structure DevicePollingInfo where
  partialPollResult : List Nat
  partialPollNextReqIdx : Nat
  partialPollPauseAfterSendMs : Nat
  deriving DecidableEq, Repr

def DevicePollingInfo.empty : DevicePollingInfo :=
  { partialPollResult := [], partialPollNextReqIdx := 0,
    partialPollPauseAfterSendMs := 0 }

/-- Modelled from the spec: `DevicePollingInfo::recordPartialPollResult` is not
among the sources (only its caller is).  Spec section 4.4: append `pollResult`
to `partialPollResult`, remember `pauseAfterSendMs`, set
`partialPollNextReqIdx = nextReqIdx`. -/
def DevicePollingInfo.recordPartialPollResult (p : DevicePollingInfo)
    (nextReqIdx _timeNowUs : Nat) (pollResult : List Nat) (pauseAfterSendMs : Nat) :
    DevicePollingInfo :=
  { p with partialPollResult := p.partialPollResult ++ pollResult,
           partialPollPauseAfterSendMs := pauseAfterSendMs,
           partialPollNextReqIdx := nextReqIdx }

/-- Modelled from the spec: `DevicePollingInfo::getPartialPollResultsAndClear`
is not among the sources.  Spec section 4.4: when a partial accumulator exists
it is handed out and cleared (returning `true`); otherwise `false`. -/
def DevicePollingInfo.getPartialPollResultsAndClear (p : DevicePollingInfo) :
    Bool × List Nat × DevicePollingInfo :=
  if p.partialPollResult.isEmpty then (false, [], p)
  else (true, p.partialPollResult,
    { p with partialPollResult := [], partialPollNextReqIdx := 0 })

/-- The `DeviceStatus` fields used by `storePollResults`.  The aggregator
(`PollDataAggregator`, not among the sources) is modelled from the spec as a
live publish sink that accepts every sample: the list of `(timeNowUs, bytes)`
pairs pushed so far. -/
structure DeviceStatusModel where
  deviceIdentPolling : DevicePollingInfo
  dataAggregator : List (Nat × List Nat)
  offlineData : ODSState
  offlineSeq : Nat
  offlineBufferPaused : Bool
  offlineDrainPaused : Bool
  deriving DecidableEq, Repr

/-- `DeviceStatus::storePollResults` (the `pPollInfo` parameter is unused by
the function body and omitted).  Returns `(stored, newState)`. -/
def DeviceStatusModel.storePollResults (d : DeviceStatusModel)
    (nextReqIdx timeNowUs : Nat) (pollResult : List Nat) (pauseAfterSendMs : Nat) :
    Bool × DeviceStatusModel :=
  if nextReqIdx ≠ 0 then
    let p1 := d.deviceIdentPolling.recordPartialPollResult nextReqIdx timeNowUs
      pollResult pauseAfterSendMs
    (true, { d with deviceIdentPolling := p1 })
  else
    let r := d.deviceIdentPolling.getPartialPollResultsAndClear
    if r.1 then
      let partialPollResult := r.2.1 ++ pollResult
      let seq := d.offlineSeq
      let offline1 :=
        if d.offlineData.configuredP ∧ ¬ d.offlineBufferPaused then
          (d.offlineData.put timeNowUs seq partialPollResult).2
        else d.offlineData
      (true,
        { d with
          deviceIdentPolling := r.2.2,
          dataAggregator := d.dataAggregator ++ [(timeNowUs, partialPollResult)],
          offlineSeq := (seq + 1) % U32LIM,
          offlineData := offline1 })
    else
      let seq := d.offlineSeq
      let offline1 :=
        if d.offlineData.configuredP ∧ ¬ d.offlineBufferPaused then
          (d.offlineData.put timeNowUs seq pollResult).2
        else d.offlineData
      (true,
        { d with
          deviceIdentPolling := r.2.2,
          dataAggregator := d.dataAggregator ++ [(timeNowUs, pollResult)],
          offlineSeq := (seq + 1) % U32LIM,
          offlineData := offline1 })

/-! ## OfflineDataStoreNVS (persistent ring over the key-value store) -/

/-- `OfflineDataStoreNVS::OfflineNvsMeta`. -/
structure OfflineNvsMeta where
  magic : Nat
  version : Nat
  payloadSize : Nat
  recordSize : Nat
  timestampBytes : Nat
  timestampResolutionUs : Nat
  maxEntries : Nat
  head : Nat
  count : Nat
  nextSeq : Nat
  importSeq : Nat
  recordsPerSegment : Nat
  segmentBytes : Nat
  drops : Nat
  deriving DecidableEq, Repr

def OFFLINE_NVS_META_MAGIC : Nat := 0x4F424E56

def OFFLINE_NVS_META_VERSION : Nat := 2

def OFFLINE_NVS_SEGMENT_BYTES : Nat := 4000

/-- `OfflineDataStoreNVS::resetMeta` (pure computation of the reset fields). -/
def resetMetaFields (payloadSize timestampBytes timestampResolutionUs maxEntries : Nat) :
    OfflineNvsMeta :=
  let recordSize := payloadSize + 4
  { magic := OFFLINE_NVS_META_MAGIC, version := OFFLINE_NVS_META_VERSION,
    payloadSize := payloadSize, recordSize := recordSize,
    timestampBytes := timestampBytes,
    timestampResolutionUs := timestampResolutionUs,
    maxEntries := maxEntries, head := 0, count := 0, nextSeq := 0,
    importSeq := 0, segmentBytes := OFFLINE_NVS_SEGMENT_BYTES,
    recordsPerSegment := if recordSize ≠ 0 then OFFLINE_NVS_SEGMENT_BYTES / recordSize else 0,
    drops := 0 }

/-- Segment blobs keyed by segment index (`makeSegmentKey` is injective in
the index, so the association list is keyed by the index directly). -/
def segLookup (segs : List (Nat × List Nat)) (k : Nat) : Option (List Nat) :=
  (segs.find? (fun kv => kv.1 = k)).map Prod.snd

def segStore (segs : List (Nat × List Nat)) (k : Nat) (v : List Nat) :
    List (Nat × List Nat) :=
  (k, v) :: segs.filter (fun kv => kv.1 ≠ k)

/-- Overwrite `d.length` bytes of `l` starting at byte offset `off`
(`memcpy` into a segment buffer). -/
def writeBytesAt (l : List Nat) (off : Nat) (d : List Nat) : List Nat :=
  l.take off ++ d ++ l.drop (off + d.length)

/-- `Raft::setLEUInt32` into a buffer (little-endian 32-bit value). -/
def setLEUInt32 (l : List Nat) (off v : Nat) : List Nat :=
  writeBytesAt l off [v % 256, v / 256 % 256, v / 2 ^ 16 % 256, v / 2 ^ 24 % 256]

/-- `Raft::getLEUInt32AndInc` from a buffer at byte offset `off`. -/
def getLEUInt32 (l : List Nat) (off : Nat) : Nat :=
  l.getD off 0 + 256 * l.getD (off + 1) 0 + 2 ^ 16 * l.getD (off + 2) 0 +
    2 ^ 24 * l.getD (off + 3) 0

/-- The `OfflineDataStoreNVS` object state.  The NVS layer is ideal (reads
and writes succeed, the committed meta blob mirrors `meta`). -/
structure NvsStoreModel where
  segments : List (Nat × List Nat)
  ready : Bool
  metaValid : Bool
  meta : OfflineNvsMeta
  effectiveMaxEntries : Nat
  deriving DecidableEq, Repr

/-- Working state of the segment-grouped write loop in `appendBatch`
(`currentSegIdx = UINT32_MAX` before any segment is entered is `none`). -/
structure AppendLoopState where
  meta : OfflineNvsMeta
  segments : List (Nat × List Nat)
  segBuf : List Nat
  currentSegIdx : Option Nat
  segDirty : Bool
  outLastSeq : Nat
  deriving DecidableEq, Repr

/-- The `flushSeg` lambda in `appendBatch` (writeSegment always succeeds in
the ideal store). -/
def flushSeg (st : AppendLoopState) : AppendLoopState :=
  match st.currentSegIdx with
  | none => st
  | some k =>
    if st.segDirty then
      { st with segments := segStore st.segments k st.segBuf, segDirty := false }
    else st

/-- One iteration `ii` of the write loop in `appendBatch`. -/
def appendOne (effectiveMaxEntries payloadSize firstSeq : Nat)
    (payloads : List Nat) (adjTsMs : List Nat) (st : AppendLoopState) (ii : Nat) :
    AppendLoopState :=
  let seq := (firstSeq + ii) % U32LIM
  let writeIdx := st.meta.head
  let segIdx := writeIdx / st.meta.recordsPerSegment
  let segOffset := writeIdx % st.meta.recordsPerSegment * st.meta.recordSize
  let st1 :=
    if st.currentSegIdx = some segIdx then st
    else
      let stf := flushSeg st
      let buf :=
        match segLookup stf.segments segIdx with
        | some b => if b.length = stf.segBuf.length then b
                    else List.replicate stf.segBuf.length 0
        | none => List.replicate stf.segBuf.length 0
      { stf with currentSegIdx := some segIdx, segBuf := buf }
  let buf1 := setLEUInt32 st1.segBuf segOffset (adjTsMs.getD ii 0)
  let buf2 := writeBytesAt buf1 (segOffset + 4)
    ((payloads.drop (ii * payloadSize)).take payloadSize)
  let count1 := if st1.meta.count < effectiveMaxEntries then st1.meta.count + 1
                else st1.meta.count
  let drops1 := if st1.meta.count < effectiveMaxEntries then st1.meta.drops
                else (st1.meta.drops + 1) % U32LIM
  { st1 with
    segBuf := buf2, segDirty := true,
    meta := { st1.meta with
              head := (st1.meta.head + 1) % st1.meta.maxEntries,
              count := count1, drops := drops1,
              nextSeq := (seq + 1) % U32LIM },
    outLastSeq := seq }

/-- The tail of `appendBatch` after the branch on `meta.count` /
`firstSeq > nextSeq`: skip handling, the segment write loop and the final
meta save. -/
def continueAppend (s : NvsStoreModel) (payloads : List Nat) (payloadSize : Nat)
    (adjTsMs : List Nat) (firstSeq count effectiveMaxEntries : Nat) :
    Bool × Nat × NvsStoreModel :=
  if firstSeq < s.meta.nextSeq ∧ count ≤ s.meta.nextSeq - firstSeq then
    (true, if 0 < s.meta.nextSeq then s.meta.nextSeq - 1 else 0, s)
  else
    let skip := if firstSeq < s.meta.nextSeq then s.meta.nextSeq - firstSeq else 0
    let segmentBytes := s.meta.recordsPerSegment * s.meta.recordSize
    let st0 : AppendLoopState :=
      { meta := s.meta, segments := s.segments,
        segBuf := List.replicate segmentBytes 0, currentSegIdx := none,
        segDirty := false, outLastSeq := 0 }
    let fin := flushSeg ((List.range' skip (count - skip)).foldl
      (appendOne effectiveMaxEntries payloadSize firstSeq payloads adjTsMs) st0)
    (true, fin.outLastSeq, { s with meta := fin.meta, segments := fin.segments })

/-- `OfflineDataStoreNVS::appendBatch`.  Returns `(ok, outLastSeq, newState)`. -/
def NvsStoreModel.appendBatch (s : NvsStoreModel) (payloads : List Nat)
    (payloadSize : Nat) (adjTsMs : List Nat) (firstSeq count : Nat) :
    Bool × Nat × NvsStoreModel :=
  if ¬ (s.ready ∧ s.metaValid) then (false, 0, s)
  else if payloadSize ≠ s.meta.payloadSize then (false, 0, s)
  else if count = 0 ∨ adjTsMs.length < count then (false, 0, s)
  else if payloads.length < count * payloadSize then (false, 0, s)
  else
    let effectiveMaxEntries :=
      if 0 < s.effectiveMaxEntries then s.effectiveMaxEntries else s.meta.maxEntries
    if effectiveMaxEntries = 0 then (false, 0, s)
    else if s.meta.count = 0 then
      continueAppend { s with meta := { s.meta with nextSeq := firstSeq } }
        payloads payloadSize adjTsMs firstSeq count effectiveMaxEntries
    else if s.meta.nextSeq < firstSeq then
      let m := resetMetaFields payloadSize s.meta.timestampBytes
        s.meta.timestampResolutionUs s.meta.maxEntries
      let s1 : NvsStoreModel :=
        { segments := [], ready := true, metaValid := true,
          meta := { m with nextSeq := firstSeq },
          effectiveMaxEntries := s.effectiveMaxEntries }
      if m.recordsPerSegment = 0 then
        (false, 0, { s1 with meta := m })
      else
        continueAppend s1 payloads payloadSize adjTsMs firstSeq count
          effectiveMaxEntries
    else
      continueAppend s payloads payloadSize adjTsMs firstSeq count
        effectiveMaxEntries

/-- The record read loop of `importTo`, over the iteration indices `ii`.
Returns `none` when a segment read fails (the C++ returns `false`, with the
destination keeping the entries already imported), else the final
destination. -/
def importLoopGo (meta : OfflineNvsMeta) (segments : List (Nat × List Nat))
    (startIdx firstSeq segmentBytes : Nat) :
    List Nat → Option Nat → List Nat → ODSState → Bool × ODSState
  | [], _, _, dest => (true, dest)
  | ii :: rest, currentSegIdx, segBuf, dest =>
    let recordIdx := (startIdx + ii) % meta.maxEntries
    let segIdx := recordIdx / meta.recordsPerSegment
    let segOffset := recordIdx % meta.recordsPerSegment * meta.recordSize
    let segRead : Option (List Nat) :=
      if currentSegIdx = some segIdx then some segBuf
      else
        match segLookup segments segIdx with
        | some b => if b.length = segmentBytes then some b else none
        | none => none
    match segRead with
    | none => (false, dest)
    | some buf =>
      let adjTsMs := getLEUInt32 buf segOffset
      let record := (buf.drop (segOffset + 4)).take meta.payloadSize
      let timeNowUs := if ii = 0 then adjTsMs * 1000 else 0
      let dest1 := (dest.put timeNowUs ((firstSeq + ii) % U32LIM) record).2
      importLoopGo meta segments startIdx firstSeq segmentBytes rest
        (some segIdx) buf dest1

/-- `OfflineDataStoreNVS::importTo`.  Returns
`(ok, outNextSeq, newStoreState, newDestState)`. -/
def NvsStoreModel.importTo (s : NvsStoreModel) (dest : ODSState)
    (importMaxEntries : Nat) : Bool × Nat × NvsStoreModel × ODSState :=
  if ¬ (s.ready ∧ s.metaValid) then (false, 0, s, dest)
  else
    let outNextSeq := s.meta.nextSeq
    if s.meta.count = 0 then (false, outNextSeq, s, dest)
    else
      let firstSeqInStore :=
        if s.meta.count ≤ s.meta.nextSeq then s.meta.nextSeq - s.meta.count else 0
      let startSeq0 := (s.meta.importSeq + 1) % U32LIM
      let startSeq := if startSeq0 < firstSeqInStore then firstSeqInStore else startSeq0
      if s.meta.nextSeq ≤ startSeq then (true, outNextSeq, s, dest)
      else
        let maxEntries :=
          if 0 < importMaxEntries ∧ importMaxEntries < dest.maxEntries then
            importMaxEntries
          else dest.maxEntries
        if maxEntries = 0 then (false, outNextSeq, s, dest)
        else
          let available := s.meta.nextSeq - startSeq
          let importCount := if available < maxEntries then available else maxEntries
          if importCount = 0 then (false, outNextSeq, s, dest)
          else
            let segmentBytes := s.meta.recordsPerSegment * s.meta.recordSize
            let tail := (s.meta.head + s.meta.maxEntries - s.meta.count) % s.meta.maxEntries
            let startIdx := (tail + (startSeq - firstSeqInStore)) % s.meta.maxEntries
            let firstSeq := startSeq
            let r := importLoopGo s.meta s.segments startIdx firstSeq segmentBytes
              (List.range importCount) none [] dest
            if r.1 then
              (true, outNextSeq,
                { s with meta := { s.meta with
                    importSeq := (firstSeq + importCount - 1) % U32LIM } }, r.2)
            else (false, outNextSeq, s, r.2)

/-! ## Reachability relations and invariants -/

/-- States of an `OfflineDataStore` reachable from construction through any
sequence of `init`, `put`, `get`, `consume` and `clear` calls with arbitrary
arguments. -/
inductive ODSReach : ODSState → Prop
  | initial : ODSReach ODSState.initial
  | init (s : ODSState) (m p tb tr : Nat) : ODSReach s →
      ODSReach (ODSState.init m p tb tr)
  | put (s : ODSState) (t q : Nat) (d : List Nat) : ODSReach s →
      ODSReach (s.put t q d).2
  | get (s : ODSState) (mr : Nat) (c : Bool) (si mb : Nat) : ODSReach s →
      ODSReach (s.get mr c si mb).2.2.2
  | consume (s : ODSState) (n : Nat) : ODSReach s →
      ODSReach (s.consume n).2
  | clear (s : ODSState) : ODSReach s → ODSReach s.clear

/-- Reachability when every `put` performed on a non-empty ring uses the
ring's current `nextSeq` as its sequence number (the discipline of the
device's `_offlineSeq` counter) and sequence numbers stay below `2 ^ 32`. -/
inductive ODSReachSeq : ODSState → Prop
  | initial : ODSReachSeq ODSState.initial
  | init (s : ODSState) (m p tb tr : Nat) : ODSReachSeq s →
      ODSReachSeq (ODSState.init m p tb tr)
  | put (s : ODSState) (t q : Nat) (d : List Nat) :
      (s.count = 0 ∨ q = s.nextSeq) → q + 1 < U32LIM → ODSReachSeq s →
      ODSReachSeq (s.put t q d).2
  | get (s : ODSState) (mr : Nat) (c : Bool) (si mb : Nat) : ODSReachSeq s →
      ODSReachSeq (s.get mr c si mb).2.2.2
  | consume (s : ODSState) (n : Nat) : ODSReachSeq s →
      ODSReachSeq (s.consume n).2
  | clear (s : ODSState) : ODSReachSeq s → ODSReachSeq s.clear

/-- Reachability when every `put` carries genuine byte values and its 64-bit
adjusted timestamp stays below `2 ^ 32` (so storing it into the `uint32_t`
side array does not truncate).  `init` arguments are `uint32_t` in C++, which
the `tr < U32LIM` side condition records. -/
inductive ODSReachTs : ODSState → Prop
  | initial : ODSReachTs ODSState.initial
  | init (s : ODSState) (m p tb tr : Nat) : tr < U32LIM → ODSReachTs s →
      ODSReachTs (ODSState.init m p tb tr)
  | put (s : ODSState) (t q : Nat) (d : List Nat) :
      ValidBytes d → s.putAdjustedTsMs t d < U32LIM → ODSReachTs s →
      ODSReachTs (s.put t q d).2
  | get (s : ODSState) (mr : Nat) (c : Bool) (si mb : Nat) : ODSReachTs s →
      ODSReachTs (s.get mr c si mb).2.2.2
  | consume (s : ODSState) (n : Nat) : ODSReachTs s →
      ODSReachTs (s.consume n).2
  | clear (s : ODSState) : ODSReachTs s → ODSReachTs s.clear

/-- Structural well-formedness of an `OfflineDataStore` state. -/
structure ODSBasicInv (s : ODSState) : Prop where
  count_le : s.count ≤ s.maxEntries
  head_lt : 0 < s.maxEntries → s.headIdx < s.maxEntries
  unconf_zero : ¬ s.configuredP → s.count = 0
  ring_len : s.ringBuffer.length = s.maxEntries
  adj_len : s.adjTimestampMs.length = s.maxEntries

/-- Timestamp-reconstruction invariant: the stored adjusted timestamps of the
occupied window form a non-decreasing chain, the newest entry records the
current base and last raw value, and every stored adjusted timestamp
dominates the timestamp component of its own payload. -/
structure ODSTsInv (s : ODSState) : Prop where
  basic : ODSBasicInv s
  wrap_def : s.timestampWrapMs =
    2 ^ (s.timestampBytes * 8) % U64LIM *
      (s.timestampResolutionUs / 1000) % U64LIM
  res_lt : s.timestampResolutionUs < U32LIM
  wrap_ge : s.lastTimestampValid = true →
    s.lastTimestampVal * (s.timestampResolutionUs / 1000) ≤ s.timestampWrapMs
  base_lt : s.lastTimestampValid = true →
    s.timestampBaseMs + s.lastTimestampVal * (s.timestampResolutionUs / 1000) < U32LIM
  newest : 0 < s.count → s.lastTimestampValid = true ∧
    s.entryAdj (s.count - 1) =
      s.timestampBaseMs + s.lastTimestampVal * (s.timestampResolutionUs / 1000)
  entry_ge : ∀ i, i < s.count →
    extractTimestampVal s.timestampBytes (s.entryPayload i) *
      (s.timestampResolutionUs / 1000) ≤ s.entryAdj i
  chain : ∀ i, i + 1 < s.count → s.entryAdj i ≤ s.entryAdj (i + 1)

/-! ## Concrete scenario states -/

/-- Scenario S2 (drop-oldest): `maxEntries = 3`, puts with sequence numbers
10..14 (payload size 1, one timestamp byte, 1 ms resolution). -/
def s2State : ODSState :=
  (((((((ODSState.init 3 1 1 1000).put 0 10 [1]).2.put 0 11 [2]).2.put
    0 12 [3]).2.put 0 13 [4]).2.put 0 14 [5]).2)

/-- Ring configured so that the 64-bit adjusted timestamp crosses `2 ^ 32`
on a raw-timestamp wrap: first capture near `2 ^ 32` milliseconds. -/
def c1CexState : ODSState :=
  (((ODSState.init 3 1 1 1000).put 4294967286000 0 [200]).2.put
    4294967286000 1 [100]).2

/-- 127 successful responses with `okMax = 129` (the `int8_t` counter is
about to overflow). -/
def c4CexState : BusAddrStatus :=
  BusAddrStatus.initialStatus.applyResponding true 129 3 127

/-- Ring reached by two `put` calls that both carry sequence number 0. -/
def c8CexState : ODSState :=
  (((ODSState.init 3 1 1 1000).put 0 0 [5]).2.put 0 0 [5]).2

/-- Partial-poll scenario (S6 tail): device with a 3-byte offline payload,
`offlineSeq = 7`, fragment `[0xAA, 0xBB]` recorded, then the closing
`nextReqIdx = 0` fragment `[0xCC]`. -/
def c6Dev0 : DeviceStatusModel :=
  { deviceIdentPolling := DevicePollingInfo.empty, dataAggregator := [],
    offlineData := ODSState.init 4 3 1 1000, offlineSeq := 7,
    offlineBufferPaused := false, offlineDrainPaused := false }

def c6Dev1 : DeviceStatusModel := (c6Dev0.storePollResults 1 0 [170, 187] 5).2

def c6Dev2 : DeviceStatusModel := (c6Dev1.storePollResults 0 4 [204] 0).2

/-- Scenario S1 (wrap reconstruction): `tsBytes = 2`, `tsResUs = 1000`,
raw device timestamps 60000, 65535, 0, 500 captured at wall-clock
1000000, 1005000, 1010000, 1010500 microseconds. -/
def s1State : ODSState :=
  ((((ODSState.init 8 2 2 1000).put 1000000 0 [234, 96]).2.put
    1005000 1 [255, 255]).2.put 1010000 2 [0, 0]).2.put 1010500 3 [1, 244] |>.2

/-- Freshly reset persistent store (payload 4 bytes, 8 entries). -/
def c10Store0 : NvsStoreModel :=
  { segments := [], ready := true, metaValid := true,
    meta := resetMetaFields 4 1 1000 8, effectiveMaxEntries := 8 }

/-- The store after appending a single record with sequence number 0. -/
def c10Store1 : NvsStoreModel :=
  (c10Store0.appendBatch [1, 2, 3, 4] 4 [123] 0 1).2.2

/-- RAM ring a caller would import into. -/
def c10Dest : ODSState := ODSState.init 4 4 1 1000

/-! ## Helper lemmas -/

theorem getD_set_self {α : Type} (l : List α) (i : Nat) (a d : α)
    (h : i < l.length) : (l.set i a).getD i d = a := by
  rw [List.getD_eq_getElem?_getD, List.getElem?_set_self h, Option.getD_some]

theorem getD_set_ne {α : Type} (l : List α) (i j : Nat) (a d : α)
    (h : i ≠ j) : (l.set i a).getD j d = l.getD j d := by
  rw [List.getD_eq_getElem?_getD, List.getElem?_set_ne h,
    ← List.getD_eq_getElem?_getD]

theorem U32LIM_pos : 0 < U32LIM := by decide

/-! ## C9: put rejects bad payloads without touching the state -/

/-- C9: a `put` whose payload length differs from the configured
`payloadSize`, or performed on an unconfigured ring, returns `false` and
leaves every component of the ring state unchanged. -/
theorem c9_put_reject (s : ODSState) (t q : Nat) (d : List Nat)
    (h : ¬ s.configuredP ∨ d.length ≠ s.payloadSize) :
    s.put t q d = (false, s) := by
  simp only [ODSState.put, if_pos h]

theorem c9_put_reject_witness :
    (¬ ODSState.initial.configuredP ∨
      ([5] : List Nat).length ≠ ODSState.initial.payloadSize) ∧
      ODSState.initial.put 0 0 [5] = (false, ODSState.initial) :=
  ⟨by decide, c9_put_reject ODSState.initial 0 0 [5] (by decide)⟩

/-! ## C3: the offline countdown (code bug: unsigned comparison) -/

/-- C3 (code bug witness): on the very first `handleResponding false` call
from a freshly created record (Initial state, `count = 0`, never online),
the code already returns `(true, spurious)` and goes offline, for every
`failMax ≥ 1`: the comparisons `count < -failMax` and `count <= -failMax`
convert `count` to `uint32_t`, and `0 ≤ 2 ^ 32 - failMax` always holds, so
the counter is never decremented and the threshold test fires immediately.
The claim (count decremented with floor `-failMax`, transition exactly on
the `failMax`-th consecutive call) describes the documented intent, not the
code. -/
theorem c3_first_fail_goes_offline (okMax failMax : Nat) (flagIn : Bool)
    (h1 : 1 ≤ failMax) (h2 : failMax < U32LIM) :
    BusAddrStatus.initialStatus.handleResponding false flagIn okMax failMax =
      (true, true,
        { count := 0, isChange := false, isOnline := false,
          wasOnceOnline := false, flagForDeletion := true,
          onlineState := .offline }) := by
  have hm : failMax % U32LIM = failMax := Nat.mod_eq_of_lt h2
  have hneg : u32Neg failMax = U32LIM - failMax := by
    rw [u32Neg, hm]
    exact Nat.mod_eq_of_lt (by omega)
  have h0 : u32OfI8 (0 : Int) = 0 := by decide
  have hlt : u32OfI8 (0 : Int) < u32Neg failMax := by
    rw [h0, hneg]; omega
  simp [BusAddrStatus.handleResponding, BusAddrStatus.initialStatus, hlt,
    Nat.le_of_lt hlt]

theorem c3_first_fail_goes_offline_witness :
    (1 ≤ 3 ∧ 3 < U32LIM) ∧
      BusAddrStatus.initialStatus.handleResponding false false 2 3 =
        (true, true,
          { count := 0, isChange := false, isOnline := false,
            wasOnceOnline := false, flagForDeletion := true,
            onlineState := .offline }) :=
  ⟨by decide, c3_first_fail_goes_offline 2 3 false (by decide) (by decide)⟩

/-! ## C10: records with sequence number 0 are never imported -/

/-- C10: `resetMeta` initialises `importSeq` to 0 and `importTo` starts
importing at `importSeq + 1`, so whenever everything in the store has
sequence number at most `importSeq` (in particular a single record appended
with sequence number 0 into a freshly reset store) nothing is transferred to
the RAM ring even though the record is counted in the store's `count`. -/
theorem c10_seq_zero_never_imported :
    (∀ p tb tr me, (resetMetaFields p tb tr me).importSeq = 0) ∧
    (∀ (s : NvsStoreModel) (dest : ODSState) (im : Nat),
      s.ready = true → s.metaValid = true → s.meta.count ≠ 0 →
      s.meta.importSeq + 1 < U32LIM → s.meta.nextSeq ≤ s.meta.importSeq + 1 →
      s.importTo dest im = (true, s.meta.nextSeq, s, dest)) ∧
    (c10Store1.meta.count = 1 ∧ c10Store1.meta.nextSeq = 1 ∧
      (c10Store1.importTo c10Dest 0).1 = true ∧
      (c10Store1.importTo c10Dest 0).2.2.2 = c10Dest) := by
  refine ⟨fun p tb tr me => rfl, ?_, by decide⟩
  intro s dest im hready hvalid hcount hlim hnext
  have hmod : (s.meta.importSeq + 1) % U32LIM = s.meta.importSeq + 1 :=
    Nat.mod_eq_of_lt hlim
  simp only [NvsStoreModel.importTo, hready, hvalid, hmod]
  rw [if_neg (by simp), if_neg hcount]
  have hkey : s.meta.nextSeq ≤
      (if s.meta.importSeq + 1 <
          (if s.meta.count ≤ s.meta.nextSeq then s.meta.nextSeq - s.meta.count else 0)
        then (if s.meta.count ≤ s.meta.nextSeq then s.meta.nextSeq - s.meta.count else 0)
        else s.meta.importSeq + 1) := by
    split_ifs <;> omega
  rw [if_pos hkey]

theorem c10_seq_zero_never_imported_witness :
    (c10Store1.ready = true ∧ c10Store1.metaValid = true ∧
      c10Store1.meta.count ≠ 0 ∧ c10Store1.meta.importSeq + 1 < U32LIM ∧
      c10Store1.meta.nextSeq ≤ c10Store1.meta.importSeq + 1) ∧
      c10Store1.importTo c10Dest 5 = (true, c10Store1.meta.nextSeq, c10Store1, c10Dest) :=
  ⟨by decide,
    c10_seq_zero_never_imported.2.1 c10Store1 c10Dest 5 (by decide) (by decide)
      (by decide) (by decide) (by decide)⟩

/-! ## C6: partial poll accumulation and assembly -/

/-- C6: `storePollResults` with `nextReqIdx > 0` only records the fragment in
the partial-poll accumulator (aggregator, RAM ring and sequence counter
untouched); with `nextReqIdx == 0` after such fragments it concatenates the
accumulated fragments with the new result, clears the accumulator, pushes the
concatenation to the aggregator as a single entry with sequence number
`offlineSeq` (which is then incremented), and stores it into the offline ring
exactly when that ring is configured and the buffer is not paused.  Scenario
S6 tail: fragments `[0xAA,0xBB]` then `[0xCC]` give one ring entry
`[0xAA,0xBB,0xCC]` with sequence `N = 7` and `offlineSeq = 8`. -/
theorem c6_partial_poll_assembly :
    (∀ (d : DeviceStatusModel) (n t pa : Nat) (p : List Nat), n ≠ 0 →
      (d.storePollResults n t p pa).1 = true ∧
      (d.storePollResults n t p pa).2.dataAggregator = d.dataAggregator ∧
      (d.storePollResults n t p pa).2.offlineData = d.offlineData ∧
      (d.storePollResults n t p pa).2.offlineSeq = d.offlineSeq ∧
      (d.storePollResults n t p pa).2.deviceIdentPolling.partialPollResult =
        d.deviceIdentPolling.partialPollResult ++ p ∧
      (d.storePollResults n t p pa).2.deviceIdentPolling.partialPollNextReqIdx = n ∧
      (d.storePollResults n t p pa).2.deviceIdentPolling.partialPollPauseAfterSendMs = pa) ∧
    (∀ (d : DeviceStatusModel) (t pa : Nat) (p : List Nat),
      d.deviceIdentPolling.partialPollResult ≠ [] →
      (d.storePollResults 0 t p pa).1 = true ∧
      (d.storePollResults 0 t p pa).2.dataAggregator =
        d.dataAggregator ++ [(t, d.deviceIdentPolling.partialPollResult ++ p)] ∧
      (d.storePollResults 0 t p pa).2.deviceIdentPolling.partialPollResult = [] ∧
      (d.storePollResults 0 t p pa).2.offlineSeq = (d.offlineSeq + 1) % U32LIM ∧
      (d.offlineData.configuredP ∧ ¬ d.offlineBufferPaused = true →
        (d.storePollResults 0 t p pa).2.offlineData =
          (d.offlineData.put t d.offlineSeq
            (d.deviceIdentPolling.partialPollResult ++ p)).2) ∧
      (¬ (d.offlineData.configuredP ∧ ¬ d.offlineBufferPaused = true) →
        (d.storePollResults 0 t p pa).2.offlineData = d.offlineData)) ∧
    (c6Dev1.deviceIdentPolling.partialPollResult = [170, 187] ∧
      c6Dev2.deviceIdentPolling.partialPollResult = [] ∧
      c6Dev2.offlineData.count = 1 ∧
      (c6Dev2.offlineData.get 0 false 0 0).2.1 = [170, 187, 204] ∧
      (c6Dev2.offlineData.get 0 false 0 0).2.2.1.map (fun m => m.seq) = [7] ∧
      c6Dev2.offlineSeq = 8) := by
  refine ⟨?_, ?_, by decide⟩
  · intro d n t pa p hn
    simp [DeviceStatusModel.storePollResults, hn,
      DevicePollingInfo.recordPartialPollResult]
  · intro d t pa p hne
    have hemp : d.deviceIdentPolling.partialPollResult.isEmpty = false := by
      simpa [List.isEmpty_iff] using hne
    by_cases hc : d.offlineData.configuredP ∧ ¬ d.offlineBufferPaused = true
    · simp [DeviceStatusModel.storePollResults,
        DevicePollingInfo.getPartialPollResultsAndClear, hemp, hc]
    · simp [DeviceStatusModel.storePollResults,
        DevicePollingInfo.getPartialPollResultsAndClear, hemp, hc]
      constructor <;> intros <;> simp_all

theorem c6_partial_poll_assembly_witness :
    ((1 : Nat) ≠ 0 ∧
      (c6Dev0.storePollResults 1 0 [170, 187] 5).2.deviceIdentPolling.partialPollResult =
        c6Dev0.deviceIdentPolling.partialPollResult ++ [170, 187]) ∧
    (c6Dev1.deviceIdentPolling.partialPollResult ≠ [] ∧
      (c6Dev1.storePollResults 0 4 [204] 0).2.dataAggregator =
        c6Dev1.dataAggregator ++ [(4, c6Dev1.deviceIdentPolling.partialPollResult ++ [204])]) :=
  ⟨⟨by decide,
    (c6_partial_poll_assembly.1 c6Dev0 1 0 5 [170, 187] (by decide)).2.2.2.2.1⟩,
   ⟨by decide,
    (c6_partial_poll_assembly.2.1 c6Dev1 4 0 [204] (by decide)).2.1⟩⟩

/-! ## C4: online transition exactly on the okMax-th success -/

theorem u32OfI8_coe (j : Nat) (h : j < U32LIM) : u32OfI8 (j : Int) = j := by
  simp only [u32OfI8, U32LIM] at *
  omega

theorem i8OfInt_small (j : Nat) (h : j ≤ 127) : i8OfInt (j : Int) = (j : Int) := by
  simp only [i8OfInt]
  omega

set_option maxRecDepth 4000 in
/-- C4 counterexample: with `okMax = 129` the `int8_t` counter wraps from
127 to -128 on the 128th successful response; the wrapped value compares
(as `uint32_t`) above `okMax`, so `handleResponding` reports the online
transition already on the 128th call, not the 129th. -/
theorem c4_counterexample :
    (c4CexState.handleResponding true false 129 3).1 = true ∧
      c4CexState.count = 127 ∧ (128 : Nat) ≠ 129 := by decide

theorem c4CountState (okMax failMax : Nat) (hok32 : okMax < U32LIM)
    (hok : okMax ≤ 128) :
    ∀ j, j < okMax →
      BusAddrStatus.initialStatus.applyResponding true okMax failMax j =
        { count := (j : Int), isChange := false, isOnline := false,
          wasOnceOnline := false, flagForDeletion := false,
          onlineState := .initialState } := by
  intro j
  induction j with
  | zero => intro _; rfl
  | succ n ih =>
    intro h
    have hn : n < okMax := by omega
    have hn127 : n + 1 ≤ 127 := by omega
    have hu : u32OfI8 (n : Int) = n := u32OfI8_coe n (by omega)
    have hmod : okMax % U32LIM = okMax := Nat.mod_eq_of_lt hok32
    have hcast : ((n : Int) + 1) = ((n + 1 : Nat) : Int) := by omega
    have hsmall : i8OfInt ((n : Int) + 1) = ((n + 1 : Nat) : Int) := by
      rw [hcast]; exact i8OfInt_small (n + 1) hn127
    have hu1 : u32OfI8 ((n : Int) + 1) = n + 1 := by
      rw [hcast]; exact u32OfI8_coe (n + 1) (by omega)
    have hnotle : ¬ okMax ≤ n + 1 := by omega
    simp [BusAddrStatus.applyResponding, ih hn, BusAddrStatus.handleResponding,
      hu, hmod, hsmall, hu1, hn, hnotle]

/-- C4 (amended): for `1 ≤ okMax ≤ 128` (so the `int8_t` success counter
cannot overflow before the threshold), `handleResponding true` from the
Initial state returns `true` exactly on the `okMax`-th call and `false` on
every earlier call, and the transition sets `isOnline`, `wasOnceOnline`,
clears `flagForDeletion` and resets the counter; for `okMax ≥ 129` the
counter wraps and the transition fires early (see the counterexample). -/
theorem c4_online_exactly_on_okMax_amended (okMax failMax k : Nat)
    (hok1 : 1 ≤ okMax) (hok : okMax ≤ 128) (hk1 : 1 ≤ k) (hk : k ≤ okMax) :
    (((BusAddrStatus.initialStatus.applyResponding true okMax failMax
        (k - 1)).handleResponding true false okMax failMax).1 =
      decide (k = okMax)) ∧
    (k = okMax →
      ((BusAddrStatus.initialStatus.applyResponding true okMax failMax
          (k - 1)).handleResponding true false okMax failMax).2.2 =
        { count := 0, isChange := true, isOnline := true, wasOnceOnline := true,
          flagForDeletion := false, onlineState := .online }) := by
  have hok32 : okMax < U32LIM := by
    have h128 : (128 : Nat) < U32LIM := by decide
    omega
  have hmod : okMax % U32LIM = okMax := Nat.mod_eq_of_lt hok32
  have hstate := c4CountState okMax failMax hok32 hok (k - 1) (by omega)
  have hu : u32OfI8 ((k - 1 : Nat) : Int) = k - 1 := u32OfI8_coe (k - 1) (by omega)
  have hcast : (((k - 1 : Nat) : Int) + 1) = ((k : Nat) : Int) := by omega
  have hlt : k - 1 < okMax := by omega
  rw [hstate]
  by_cases hke : k = okMax
  · subst hke
    have hlt1 : k - 1 < k := by omega
    have hthr : k ≤ u32OfI8 (i8OfInt (((k - 1 : Nat) : Int) + 1)) := by
      rw [hcast]
      by_cases h128 : k = 128
      · rw [h128]
        have he : u32OfI8 (i8OfInt ((128 : Nat) : Int)) = U32LIM - 128 := by decide
        have hsum : (128 : Nat) + 128 ≤ U32LIM := by decide
        rw [he]
        omega
      · have hk127 : k ≤ 127 := by omega
        rw [i8OfInt_small k hk127, u32OfI8_coe k (by omega)]
    simp [BusAddrStatus.handleResponding, hmod, hu, hlt1, hthr]
  · have hk127 : k ≤ 127 := by omega
    have hsmall : i8OfInt (((k - 1 : Nat) : Int) + 1) = ((k : Nat) : Int) := by
      rw [hcast]; exact i8OfInt_small k hk127
    have huk : u32OfI8 ((k : Nat) : Int) = k := u32OfI8_coe k (by omega)
    have hnotle : ¬ okMax ≤ k := by omega
    simp [BusAddrStatus.handleResponding, hmod, hu, hlt, hsmall, huk, hnotle, hke]

theorem c4_online_exactly_on_okMax_amended_witness :
    ((1 : Nat) ≤ 2 ∧ (2 : Nat) ≤ 128 ∧ (1 : Nat) ≤ 2 ∧ (2 : Nat) ≤ 2) ∧
      ((BusAddrStatus.initialStatus.applyResponding true 2 3 1).handleResponding
          true false 2 3).1 = true ∧
      ((BusAddrStatus.initialStatus.applyResponding true 2 3 0).handleResponding
          true false 2 3).1 = false :=
  ⟨by decide,
    by
      have h2 := c4_online_exactly_on_okMax_amended 2 3 2 (by decide) (by decide)
        (by decide) (by decide)
      have h1 := c4_online_exactly_on_okMax_amended 2 3 1 (by decide) (by decide)
        (by decide) (by decide)
      exact ⟨by simpa using h2.1, by simpa using h1.1⟩⟩

/-! ## C2: drop-oldest overflow policy -/

theorem mod_collapse (c : Prop) [Decidable c] (b w tv : Nat) :
    ((if c then (b + w) % U64LIM else b) + tv) % U64LIM % U32LIM =
      ((if c then b + w else b) + tv) % U32LIM := by
  have hdvd : U32LIM ∣ U64LIM := by
    refine ⟨U32LIM, ?_⟩
    norm_num [U32LIM, U64LIM]
  split_ifs with hc
  · rw [Nat.mod_add_mod, Nat.mod_mod_of_dvd _ hdvd]
  · rw [Nat.mod_mod_of_dvd _ hdvd]

theorem modAddNe (h k m : Nat) (hm : h < m) (hk1 : 0 < k) (hk2 : k < m) :
    (h + k) % m ≠ h := by
  intro heq
  rcases Nat.lt_or_ge (h + k) m with hc | hc
  · rw [Nat.mod_eq_of_lt hc] at heq
    omega
  · rw [Nat.mod_eq_sub_mod hc, Nat.mod_eq_of_lt (by omega)] at heq
    omega

/-- Field-level description of an accepted `put`. -/
theorem put_proj (s : ODSState) (t q : Nat) (d : List Nat)
    (hconf : s.configuredP) (hlen : d.length = s.payloadSize) :
    (s.put t q d).1 = true ∧
    (s.put t q d).2.ringBuffer = s.ringBuffer.set s.headIdx d ∧
    (s.put t q d).2.adjTimestampMs =
      s.adjTimestampMs.set s.headIdx (s.putAdjustedTsMs t d % U32LIM) ∧
    (s.put t q d).2.headIdx = (s.headIdx + 1) % s.maxEntries ∧
    (s.put t q d).2.count =
      (if s.count < s.maxEntries then s.count + 1 else s.count) ∧
    (s.put t q d).2.drops =
      (if s.count < s.maxEntries then s.drops else (s.drops + 1) % U32LIM) ∧
    (s.put t q d).2.maxEntries = s.maxEntries ∧
    (s.put t q d).2.payloadSize = s.payloadSize ∧
    (s.put t q d).2.timestampBytes = s.timestampBytes ∧
    (s.put t q d).2.timestampResolutionUs = s.timestampResolutionUs ∧
    (s.put t q d).2.timestampWrapMs = s.timestampWrapMs ∧
    (s.put t q d).2.lastTimestampVal = extractTimestampVal s.timestampBytes d ∧
    (s.put t q d).2.lastTimestampValid = true ∧
    (s.put t q d).2.nextSeq = (q + 1) % U32LIM := by
  have hg : ¬ (¬ s.configuredP ∨ d.length ≠ s.payloadSize) := by
    simp [hconf, hlen]
  simp only [ODSState.put, if_neg hg]
  refine ⟨trivial, trivial, ?_, trivial, trivial, trivial, trivial, trivial,
    trivial, trivial, trivial, trivial, trivial, trivial⟩
  congr 1
  rw [mod_collapse]
  rfl

/-- C2: an accepted `put` at `count = maxEntries` overwrites the oldest
entry (every remaining entry shifts down one logical position and the new
payload becomes the newest entry), keeps `count = maxEntries` and increments
`drops` by exactly one; at `count < maxEntries` it increments `count` and
leaves `drops` unchanged.  Scenario S2: `maxEntries = 3`, puts with sequence
numbers 10..14 end with `count = 3`, `drops = 2`, `firstSeq = 12`, and an
uncapped `get` returns the three entries with sequence numbers 12, 13, 14. -/
theorem c2_drop_oldest :
    (∀ (s : ODSState) (t q : Nat) (d : List Nat),
      ODSBasicInv s → s.configuredP → d.length = s.payloadSize →
      s.drops + 1 < U32LIM →
      ((s.put t q d).1 = true ∧
       (s.count = s.maxEntries →
         (s.put t q d).2.count = s.maxEntries ∧
         (s.put t q d).2.drops = s.drops + 1 ∧
         (∀ i, i + 1 < s.maxEntries →
           (s.put t q d).2.entryPayload i = s.entryPayload (i + 1)) ∧
         (s.put t q d).2.entryPayload (s.maxEntries - 1) = d) ∧
       (s.count < s.maxEntries →
         (s.put t q d).2.count = s.count + 1 ∧
         (s.put t q d).2.drops = s.drops))) ∧
    (s2State.count = 3 ∧ s2State.drops = 2 ∧ s2State.getStats.firstSeq = 12 ∧
      (s2State.get 0 true 0 0).1 = 3 ∧
      (s2State.get 0 true 0 0).2.2.1.map (fun m => m.seq) = [12, 13, 14]) := by
  refine ⟨?_, by decide⟩
  intro s t q d hinv hconf hlen hdrops
  obtain ⟨hres, hring, hadj, hhead, hcount, hdropsEq, hmax, hpay, htb, htr, hw,
    hlv, hvalid, hseq⟩ := put_proj s t q d hconf hlen
  have hm : 0 < s.maxEntries := hconf.1
  have hhlt : s.headIdx < s.maxEntries := hinv.head_lt hm
  refine ⟨hres, ?_, ?_⟩
  · intro hfull
    have hnlt : ¬ s.count < s.maxEntries := by omega
    refine ⟨by rw [hcount, if_neg hnlt, hfull], ?_, ?_, ?_⟩
    · rw [hdropsEq, if_neg hnlt, Nat.mod_eq_of_lt hdrops]
    · intro i hi
      have hslot : (s.put t q d).2.entrySlot i =
          (s.headIdx + (i + 1)) % s.maxEntries := by
        simp only [ODSState.entrySlot, hhead, hcount, hmax]
        rw [if_neg hnlt, hfull, Nat.add_sub_cancel, Nat.mod_add_mod]
        congr 1
        omega
      have hslotS : s.entrySlot (i + 1) = (s.headIdx + (i + 1)) % s.maxEntries := by
        simp only [ODSState.entrySlot, hfull]
        congr 1
        omega
      have hne : s.headIdx ≠ (s.headIdx + (i + 1)) % s.maxEntries :=
        fun hcontra =>
          modAddNe s.headIdx (i + 1) s.maxEntries hhlt (by omega) (by omega)
            hcontra.symm
      simp only [ODSState.entryPayload, hslot, hslotS, hring]
      exact getD_set_ne _ _ _ _ _ hne
    · have hslot : (s.put t q d).2.entrySlot (s.maxEntries - 1) = s.headIdx := by
        simp only [ODSState.entrySlot, hhead, hcount, hmax]
        rw [if_neg hnlt, hfull, Nat.add_sub_cancel, Nat.mod_add_mod]
        have harith : s.headIdx + 1 + (s.maxEntries - 1) =
            s.headIdx + s.maxEntries := by omega
        rw [harith, Nat.add_mod_right, Nat.mod_eq_of_lt hhlt]
      simp only [ODSState.entryPayload, hslot, hring]
      exact getD_set_self _ _ _ _ (by rw [hinv.ring_len]; exact hhlt)
  · intro hlt
    exact ⟨by rw [hcount, if_pos hlt], by rw [hdropsEq, if_pos hlt]⟩

theorem c2_drop_oldest_witness :
    (ODSBasicInv s2State ∧ s2State.configuredP ∧
      ([9] : List Nat).length = s2State.payloadSize ∧
      s2State.drops + 1 < U32LIM ∧ s2State.count = s2State.maxEntries) ∧
    (s2State.put 0 15 [9]).2.count = s2State.maxEntries ∧
    (s2State.put 0 15 [9]).2.drops = s2State.drops + 1 ∧
    (s2State.put 0 15 [9]).2.entryPayload (s2State.maxEntries - 1) = [9] :=
  ⟨⟨⟨by decide, by decide, by decide, by decide, by decide⟩,
    by decide, by decide, by decide, by decide⟩,
   by
    have h := (c2_drop_oldest.1 s2State 0 15 [9]
      ⟨by decide, by decide, by decide, by decide, by decide⟩
      (by decide) (by decide) (by decide)).2.1 (by decide)
    exact ⟨h.1, h.2.1, h.2.2.2⟩⟩

/-! ## C7: structural ring invariants -/

/-- `get` only ever lowers `count`; every other field is untouched. -/
theorem get_state_fields (s : ODSState) (mr : Nat) (c : Bool) (si mb : Nat) :
    (s.get mr c si mb).2.2.2.count ≤ s.count ∧
    (s.get mr c si mb).2.2.2.ringBuffer = s.ringBuffer ∧
    (s.get mr c si mb).2.2.2.adjTimestampMs = s.adjTimestampMs ∧
    (s.get mr c si mb).2.2.2.headIdx = s.headIdx ∧
    (s.get mr c si mb).2.2.2.maxEntries = s.maxEntries ∧
    (s.get mr c si mb).2.2.2.payloadSize = s.payloadSize ∧
    (s.get mr c si mb).2.2.2.timestampBytes = s.timestampBytes ∧
    (s.get mr c si mb).2.2.2.timestampResolutionUs = s.timestampResolutionUs ∧
    (s.get mr c si mb).2.2.2.timestampWrapMs = s.timestampWrapMs ∧
    (s.get mr c si mb).2.2.2.timestampBaseMs = s.timestampBaseMs ∧
    (s.get mr c si mb).2.2.2.lastTimestampVal = s.lastTimestampVal ∧
    (s.get mr c si mb).2.2.2.lastTimestampValid = s.lastTimestampValid ∧
    (s.get mr c si mb).2.2.2.drops = s.drops ∧
    (s.get mr c si mb).2.2.2.tsWrapCount = s.tsWrapCount ∧
    (s.get mr c si mb).2.2.2.nextSeq = s.nextSeq := by
  simp only [ODSState.get]
  split_ifs <;> simp [Nat.sub_le]

/-- Every reachable ring state is structurally well-formed. -/
theorem reach_basic_inv (s : ODSState) (h : ODSReach s) : ODSBasicInv s := by
  induction h with
  | initial => exact ⟨Nat.le_refl 0, fun h => absurd h (by decide), fun _ => rfl, rfl, rfl⟩
  | init s m p tb tr _ _ =>
    exact ⟨Nat.zero_le m, fun h => h, fun _ => rfl,
      List.length_replicate _ _, List.length_replicate _ _⟩
  | put s t q d _ ih =>
    by_cases hg : ¬ s.configuredP ∨ d.length ≠ s.payloadSize
    · rw [c9_put_reject s t q d hg]
      exact ih
    · push_neg at hg
      obtain ⟨hconf, hlen⟩ := hg
      obtain ⟨_, hring, hadj, hhead, hcount, _, hmax, hpay, _, _, _, _, _, _⟩ :=
        put_proj s t q d hconf hlen
      have hm : 0 < s.maxEntries := hconf.1
      refine ⟨?_, ?_, ?_, ?_, ?_⟩
      · rw [hcount, hmax]
        split_ifs with hlt
        · omega
        · exact ih.count_le
      · intro _
        rw [hhead, hmax]
        exact Nat.mod_lt _ hm
      · intro hnc
        exfalso
        apply hnc
        constructor
        · rw [hmax]; exact hconf.1
        · rw [hpay]; exact hconf.2
      · rw [hring, hmax, List.length_set]
        exact ih.ring_len
      · rw [hadj, hmax, List.length_set]
        exact ih.adj_len
  | get s mr c si mb _ ih =>
    obtain ⟨hcount, hring, hadj, hhead, hmax, hpay, _, _, _, _, _, _, _, _, _⟩ :=
      get_state_fields s mr c si mb
    refine ⟨?_, ?_, ?_, ?_, ?_⟩
    · rw [hmax]; exact Nat.le_trans hcount ih.count_le
    · intro hp; rw [hhead, hmax]; rw [hmax] at hp; exact ih.head_lt hp
    · intro hnc
      rw [ODSState.configuredP, hmax, hpay] at hnc
      have := ih.unconf_zero hnc
      omega
    · rw [hring, hmax]; exact ih.ring_len
    · rw [hadj, hmax]; exact ih.adj_len
  | consume s n _ ih =>
    by_cases hc : s.configuredP
    · have heq : s.consume n =
          (true, { s with count := s.count - (if s.count < n then s.count else n) }) := by
        simp [ODSState.consume, hc]
      rw [heq]
      exact ⟨Nat.le_trans (Nat.sub_le _ _) ih.count_le, ih.head_lt,
        fun hnc => absurd hc hnc, ih.ring_len, ih.adj_len⟩
    · have heq : s.consume n = (false, s) := by simp [ODSState.consume, hc]
      rw [heq]
      exact ih
  | clear s _ ih =>
    exact ⟨Nat.zero_le _, fun h => h, fun _ => rfl, ih.ring_len, ih.adj_len⟩

/-- An uncapped `get` (all responses, no byte cap, offset 0) returns exactly
`count` entries. -/
theorem get_uncapped (s : ODSState) (hinv : ODSBasicInv s) (c : Bool) :
    (s.get 0 c 0 0).1 = s.count ∧ (s.get 0 c 0 0).2.2.1.length = s.count := by
  by_cases hc : s.configuredP
  · by_cases h0 : s.count = 0
    · simp [ODSState.get, hc, h0]
    · simp [ODSState.get, hc, h0]
  · have h0 := hinv.unconf_zero hc
    simp [ODSState.get, hc, h0]

/-- C7: in every state reachable through `init`/`put`/`get`/`consume`/`clear`,
`count ≤ maxEntries`, the head index stays inside the ring whenever the ring
is configured, and an uncapped `get` returns exactly `count` entries. -/
theorem c7_ring_invariants (s : ODSState) (h : ODSReach s) :
    s.count ≤ s.maxEntries ∧
    (0 < s.maxEntries → s.headIdx < s.maxEntries) ∧
    (∀ c, (s.get 0 c 0 0).1 = s.count ∧ (s.get 0 c 0 0).2.2.1.length = s.count) :=
  have hinv := reach_basic_inv s h
  ⟨hinv.count_le, hinv.head_lt, fun c => get_uncapped s hinv c⟩

theorem c7_ring_invariants_witness :
    ODSReach s2State ∧ s2State.count ≤ s2State.maxEntries ∧
      (s2State.get 0 true 0 0).1 = s2State.count := by
  have hr : ODSReach s2State :=
    ODSReach.put _ 0 14 [5] (ODSReach.put _ 0 13 [4] (ODSReach.put _ 0 12 [3]
      (ODSReach.put _ 0 11 [2] (ODSReach.put _ 0 10 [1]
        (ODSReach.init ODSState.initial 3 1 1 1000 ODSReach.initial)))))
  have h := c7_ring_invariants s2State hr
  exact ⟨hr, h.1, (h.2.2 true).1⟩

/-! ## C8: nextSeq / firstSeq accounting -/

theorem reachSeq_reach (s : ODSState) (h : ODSReachSeq s) : ODSReach s := by
  induction h with
  | initial => exact ODSReach.initial
  | init s m p tb tr _ ih => exact ODSReach.init s m p tb tr ih
  | put s t q d _ _ _ ih => exact ODSReach.put s t q d ih
  | get s mr c si mb _ ih => exact ODSReach.get s mr c si mb ih
  | consume s n _ ih => exact ODSReach.consume s n ih
  | clear s _ ih => exact ODSReach.clear s ih

theorem reachSeq_seq_inv (s : ODSState) (h : ODSReachSeq s) :
    s.count ≤ s.nextSeq ∧ (¬ s.configuredP → s.nextSeq = 0) := by
  induction h with
  | initial => exact ⟨Nat.le_refl 0, fun _ => rfl⟩
  | init s m p tb tr _ _ => exact ⟨Nat.le_refl 0, fun _ => rfl⟩
  | put s t q d hdisc hq _ ih =>
    by_cases hg : ¬ s.configuredP ∨ d.length ≠ s.payloadSize
    · rw [c9_put_reject s t q d hg]
      exact ih
    · push_neg at hg
      obtain ⟨hconf, hlen⟩ := hg
      obtain ⟨_, _, _, _, hcount, _, hmax, hpay, _, _, _, _, _, hseq⟩ :=
        put_proj s t q d hconf hlen
      have hseq1 : (s.put t q d).2.nextSeq = q + 1 := by
        rw [hseq]; exact Nat.mod_eq_of_lt hq
      constructor
      · rw [hcount, hseq1]
        rcases hdisc with h0 | hqe
        · split_ifs <;> omega
        · have := ih.1
          subst hqe
          split_ifs <;> omega
      · intro hnc
        exfalso
        apply hnc
        exact ⟨by rw [hmax]; exact hconf.1, by rw [hpay]; exact hconf.2⟩
  | get s mr c si mb _ ih =>
    obtain ⟨hcount, _, _, _, hmax, hpay, _, _, _, _, _, _, _, _, hseq⟩ :=
      get_state_fields s mr c si mb
    constructor
    · rw [hseq]; exact Nat.le_trans hcount ih.1
    · intro hnc
      rw [hseq]
      apply ih.2
      rw [ODSState.configuredP, hmax, hpay] at hnc
      exact hnc
  | consume s n _ ih =>
    by_cases hc : s.configuredP
    · have heq : s.consume n =
          (true, { s with count := s.count - (if s.count < n then s.count else n) }) := by
        simp [ODSState.consume, hc]
      rw [heq]
      exact ⟨Nat.le_trans (Nat.sub_le _ _) ih.1, fun hnc => absurd hc hnc⟩
    · have heq : s.consume n = (false, s) := by simp [ODSState.consume, hc]
      rw [heq]
      exact ih
  | clear s _ _ => exact ⟨Nat.le_refl 0, fun _ => rfl⟩

/-- C8 counterexample: two `put` calls that both pass sequence number 0 are
legal calls of the ring interface, and they produce a reachable state with
`count = 2 > nextSeq = 1`; `nextSeq ≥ count` therefore does not hold in every
reachable state when `put` sequence numbers are unconstrained. -/
theorem c8_counterexample :
    ODSReach c8CexState ∧ c8CexState.count = 2 ∧ c8CexState.nextSeq = 1 ∧
      ¬ c8CexState.count ≤ c8CexState.nextSeq :=
  ⟨ODSReach.put _ 0 0 [5] (ODSReach.put _ 0 0 [5]
      (ODSReach.init ODSState.initial 3 1 1 1000 ODSReach.initial)),
    by decide, by decide, by decide⟩

/-- First metadata record returned by an uncapped `get`. -/
theorem get_first_seq (s : ODSState) (hinv : ODSBasicInv s) (c : Bool)
    (h0 : 0 < s.count) :
    ((s.get 0 c 0 0).2.2.1.getD 0 ⟨0, 0, 0⟩).seq =
      (if s.count < s.nextSeq then s.nextSeq - s.count else 0) := by
  have hc : s.configuredP := by
    by_contra hnc
    exact absurd (hinv.unconf_zero hnc) (by omega)
  have hne : ¬ s.count = 0 := by omega
  simp [ODSState.get, hc, hne, ODSState.getMeta, List.getD_eq_getElem?_getD,
    List.getElem?_range, h0]

/-- C8 (amended): in every state reachable when each `put` on a non-empty
ring uses the ring's current `nextSeq` (the discipline of the device's
`offlineSeq` counter) and sequence numbers do not wrap, `nextSeq ≥ count`
holds, the stats report `firstSeq = nextSeq - count`, and the first sequence
number returned by an uncapped `get` is `nextSeq - count`. -/
theorem c8_first_seq_amended (s : ODSState) (h : ODSReachSeq s) :
    s.count ≤ s.nextSeq ∧ s.getStats.firstSeq = s.nextSeq - s.count ∧
    (∀ c, 0 < s.count →
      ((s.get 0 c 0 0).2.2.1.getD 0 ⟨0, 0, 0⟩).seq = s.nextSeq - s.count) := by
  have hbasic := reach_basic_inv s (reachSeq_reach s h)
  have hseq := reachSeq_seq_inv s h
  refine ⟨hseq.1, ?_, ?_⟩
  · by_cases hc : s.configuredP
    · have hcnt := hseq.1
      simp only [ODSState.getStats, if_neg (not_not.mpr hc)]
      split_ifs <;> omega
    · have h0 := hbasic.unconf_zero hc
      have h1 := hseq.2 hc
      simp [ODSState.getStats, hc, h0, h1]
  · intro c h0
    rw [get_first_seq s hbasic c h0]
    have := hseq.1
    split_ifs <;> omega

theorem c8_first_seq_amended_witness :
    ODSReachSeq s2State ∧ s2State.count ≤ s2State.nextSeq ∧
      s2State.getStats.firstSeq = s2State.nextSeq - s2State.count := by
  have h0 : ODSReachSeq (ODSState.init 3 1 1 1000) :=
    ODSReachSeq.init ODSState.initial 3 1 1 1000 ODSReachSeq.initial
  have h1 := ODSReachSeq.put _ 0 10 [1] (Or.inl (by decide)) (by decide) h0
  have h2 := ODSReachSeq.put _ 0 11 [2] (Or.inr (by decide)) (by decide) h1
  have h3 := ODSReachSeq.put _ 0 12 [3] (Or.inr (by decide)) (by decide) h2
  have h4 := ODSReachSeq.put _ 0 13 [4] (Or.inr (by decide)) (by decide) h3
  have h5 := ODSReachSeq.put _ 0 14 [5] (Or.inr (by decide)) (by decide) h4
  have hr : ODSReachSeq s2State := h5
  have hth := c8_first_seq_amended s2State hr
  exact ⟨hr, hth.1, hth.2.1⟩

/-! ## C5: appendBatch alignment, gap reset, and skip handling -/

theorem flushSeg_meta (st : AppendLoopState) : (flushSeg st).meta = st.meta := by
  unfold flushSeg
  cases st.currentSegIdx with
  | none => rfl
  | some k => split_ifs <;> rfl

theorem flushSeg_outLastSeq (st : AppendLoopState) :
    (flushSeg st).outLastSeq = st.outLastSeq := by
  unfold flushSeg
  cases st.currentSegIdx with
  | none => rfl
  | some k => split_ifs <;> rfl

/-- Effect of one `appendBatch` loop iteration on the meta state. -/
theorem appendOne_char (eff psize firstSeq : Nat) (payloads adjTsMs : List Nat)
    (st : AppendLoopState) (ii : Nat) :
    (appendOne eff psize firstSeq payloads adjTsMs st ii).meta =
      { st.meta with
        head := (st.meta.head + 1) % st.meta.maxEntries,
        count := if st.meta.count < eff then st.meta.count + 1 else st.meta.count,
        drops := if st.meta.count < eff then st.meta.drops
                 else (st.meta.drops + 1) % U32LIM,
        nextSeq := ((firstSeq + ii) % U32LIM + 1) % U32LIM } ∧
    (appendOne eff psize firstSeq payloads adjTsMs st ii).outLastSeq =
      (firstSeq + ii) % U32LIM := by
  by_cases hcur : st.currentSegIdx =
      some (st.meta.head / st.meta.recordsPerSegment)
  · simp [appendOne, hcur]
  · simp [appendOne, hcur, flushSeg_meta]

/-- Characterisation of the segment write loop: head advances by the number
of records written (mod `maxEntries`), `count` saturates at the effective
cap, each overflow write adds one drop, and `nextSeq` / `outLastSeq` follow
the last written sequence number.  All schema fields are untouched. -/
theorem appendLoop_char (eff psize firstSeq : Nat) (payloads adjTsMs : List Nat) :
    ∀ (n a : Nat) (st : AppendLoopState),
      st.meta.count ≤ eff →
      st.meta.drops + n < U32LIM →
      firstSeq + a + n < U32LIM →
      (st.meta.head < st.meta.maxEntries →
        ((List.range' a n).foldl (appendOne eff psize firstSeq payloads adjTsMs)
            st).meta.head = (st.meta.head + n) % st.meta.maxEntries) ∧
      ((List.range' a n).foldl (appendOne eff psize firstSeq payloads adjTsMs)
          st).meta.count = min (st.meta.count + n) eff ∧
      ((List.range' a n).foldl (appendOne eff psize firstSeq payloads adjTsMs)
          st).meta.drops =
        st.meta.drops + (st.meta.count + n - min (st.meta.count + n) eff) ∧
      ((List.range' a n).foldl (appendOne eff psize firstSeq payloads adjTsMs)
          st).meta.nextSeq =
        (if n = 0 then st.meta.nextSeq else firstSeq + a + n) ∧
      ((List.range' a n).foldl (appendOne eff psize firstSeq payloads adjTsMs)
          st).outLastSeq =
        (if n = 0 then st.outLastSeq else firstSeq + a + n - 1) ∧
      ((List.range' a n).foldl (appendOne eff psize firstSeq payloads adjTsMs)
          st).meta.maxEntries = st.meta.maxEntries ∧
      ((List.range' a n).foldl (appendOne eff psize firstSeq payloads adjTsMs)
          st).meta.importSeq = st.meta.importSeq ∧
      ((List.range' a n).foldl (appendOne eff psize firstSeq payloads adjTsMs)
          st).meta.payloadSize = st.meta.payloadSize ∧
      ((List.range' a n).foldl (appendOne eff psize firstSeq payloads adjTsMs)
          st).meta.recordSize = st.meta.recordSize ∧
      ((List.range' a n).foldl (appendOne eff psize firstSeq payloads adjTsMs)
          st).meta.recordsPerSegment = st.meta.recordsPerSegment ∧
      ((List.range' a n).foldl (appendOne eff psize firstSeq payloads adjTsMs)
          st).meta.timestampBytes = st.meta.timestampBytes ∧
      ((List.range' a n).foldl (appendOne eff psize firstSeq payloads adjTsMs)
          st).meta.timestampResolutionUs = st.meta.timestampResolutionUs := by
  intro n
  induction n with
  | zero =>
    intro a st hcle _ _
    refine ⟨?_, ?_, ?_, rfl, rfl, rfl, rfl, rfl, rfl, rfl, rfl, rfl⟩
    · intro hh
      show st.meta.head = (st.meta.head + 0) % st.meta.maxEntries
      rw [Nat.add_zero, Nat.mod_eq_of_lt hh]
    · show st.meta.count = min (st.meta.count + 0) eff
      omega
    · show st.meta.drops =
        st.meta.drops + (st.meta.count + 0 - min (st.meta.count + 0) eff)
      omega
  | succ m ih =>
    intro a st hcle hdrops hseq
    have hrange : List.range' a (m + 1) = List.range' a m ++ [a + m] := by
      have h := @List.range'_concat 1 a m
      simpa using h
    rw [hrange, List.foldl_append]
    set mid := (List.range' a m).foldl
      (appendOne eff psize firstSeq payloads adjTsMs) st with hmid
    obtain ⟨ihh, ihc, ihd, ihn, ihl, ihm, ihi, ihp, ihr, ihrp, ihtb, ihtr⟩ :=
      ih a st hcle (by omega) (by omega)
    simp only [List.foldl_cons, List.foldl_nil]
    obtain ⟨hone, honeL⟩ := appendOne_char eff psize firstSeq payloads adjTsMs
      mid (a + m)
    have hseqmod : (firstSeq + (a + m)) % U32LIM = firstSeq + (a + m) :=
      Nat.mod_eq_of_lt (by omega)
    have hseqmod2 : (firstSeq + (a + m) + 1) % U32LIM = firstSeq + (a + m) + 1 :=
      Nat.mod_eq_of_lt (by omega)
    refine ⟨?_, ?_, ?_, ?_, ?_, ?_, ?_, ?_, ?_, ?_, ?_, ?_⟩
    · intro hh
      rw [hone]
      simp only []
      rw [ihm, ihh hh, Nat.mod_add_mod]
      try congr 1
      try omega
    · rw [hone]
      simp only []
      rw [ihc]
      split_ifs with hcase
      · omega
      · omega
    · rw [hone]
      simp only []
      rw [ihd, ihc]
      split_ifs with hcase
      · omega
      · rw [Nat.mod_eq_of_lt (by omega)]
        omega
    · rw [hone]
      simp only []
      rw [hseqmod, hseqmod2, if_neg (Nat.succ_ne_zero m)]
      omega
    · rw [honeL, hseqmod, if_neg (Nat.succ_ne_zero m)]
      omega
    · rw [hone]; exact ihm
    · rw [hone]; exact ihi
    · rw [hone]; exact ihp
    · rw [hone]; exact ihr
    · rw [hone]; exact ihrp
    · rw [hone]; exact ihtb
    · rw [hone]; exact ihtr

theorem continueAppend_noskip (s : NvsStoreModel) (payloads : List Nat)
    (psize : Nat) (adjTsMs : List Nat) (firstSeq cnt eff : Nat)
    (hge : s.meta.nextSeq ≤ firstSeq) (hcle : s.meta.count ≤ eff)
    (hcnt : cnt ≠ 0) (hdrops : s.meta.drops + cnt < U32LIM)
    (hseq : firstSeq + cnt < U32LIM) :
    (continueAppend s payloads psize adjTsMs firstSeq cnt eff).1 = true ∧
    (continueAppend s payloads psize adjTsMs firstSeq cnt eff).2.1 =
      firstSeq + cnt - 1 ∧
    (continueAppend s payloads psize adjTsMs firstSeq cnt eff).2.2.meta.nextSeq =
      firstSeq + cnt ∧
    (continueAppend s payloads psize adjTsMs firstSeq cnt eff).2.2.meta.count =
      min (s.meta.count + cnt) eff ∧
    (continueAppend s payloads psize adjTsMs firstSeq cnt eff).2.2.meta.drops =
      s.meta.drops + (s.meta.count + cnt - min (s.meta.count + cnt) eff) ∧
    (continueAppend s payloads psize adjTsMs firstSeq cnt eff).2.2.meta.importSeq =
      s.meta.importSeq ∧
    (s.meta.head < s.meta.maxEntries →
      (continueAppend s payloads psize adjTsMs firstSeq cnt eff).2.2.meta.head =
        (s.meta.head + cnt) % s.meta.maxEntries) ∧
    (continueAppend s payloads psize adjTsMs firstSeq cnt eff).2.2.meta.maxEntries =
      s.meta.maxEntries := by
  have hns : ¬ (firstSeq < s.meta.nextSeq ∧ cnt ≤ s.meta.nextSeq - firstSeq) := by
    omega
  have hsk : (if firstSeq < s.meta.nextSeq then s.meta.nextSeq - firstSeq else 0)
      = 0 := if_neg (by omega)
  simp only [continueAppend, if_neg hns, hsk, Nat.sub_zero]
  obtain ⟨lh, lc, ld, ln, ll, lm, li, _, _, _, _, _⟩ :=
    appendLoop_char eff psize firstSeq payloads adjTsMs cnt 0
      { meta := s.meta, segments := s.segments,
        segBuf := List.replicate (s.meta.recordsPerSegment * s.meta.recordSize) 0,
        currentSegIdx := none, segDirty := false, outLastSeq := 0 }
      hcle hdrops (by omega)
  simp only [flushSeg_meta, flushSeg_outLastSeq]
  refine ⟨trivial, ?_, ?_, ?_, ?_, ?_, ?_, ?_⟩
  · rw [ll, if_neg hcnt]
    omega
  · rw [ln, if_neg hcnt]
    omega
  · rw [lc]
  · rw [ld]
  · rw [li]
  · intro hh
    rw [lh hh]
  · rw [lm]

theorem continueAppend_skip_all (s : NvsStoreModel) (payloads : List Nat)
    (psize : Nat) (adjTsMs : List Nat) (firstSeq cnt eff : Nat)
    (hlt : firstSeq < s.meta.nextSeq) (hall : cnt ≤ s.meta.nextSeq - firstSeq) :
    continueAppend s payloads psize adjTsMs firstSeq cnt eff =
      (true, s.meta.nextSeq - 1, s) := by
  have hc : firstSeq < s.meta.nextSeq ∧ cnt ≤ s.meta.nextSeq - firstSeq :=
    ⟨hlt, hall⟩
  simp only [continueAppend, if_pos hc, if_pos (show 0 < s.meta.nextSeq by omega)]

theorem continueAppend_partial (s : NvsStoreModel) (payloads : List Nat)
    (psize : Nat) (adjTsMs : List Nat) (firstSeq cnt eff : Nat)
    (hlt : firstSeq < s.meta.nextSeq)
    (hpart : s.meta.nextSeq - firstSeq < cnt)
    (hcle : s.meta.count ≤ eff)
    (hdrops : s.meta.drops + (cnt - (s.meta.nextSeq - firstSeq)) < U32LIM)
    (hseq : firstSeq + cnt < U32LIM) :
    (continueAppend s payloads psize adjTsMs firstSeq cnt eff).1 = true ∧
    (continueAppend s payloads psize adjTsMs firstSeq cnt eff).2.1 =
      firstSeq + cnt - 1 ∧
    (continueAppend s payloads psize adjTsMs firstSeq cnt eff).2.2.meta.nextSeq =
      firstSeq + cnt ∧
    (continueAppend s payloads psize adjTsMs firstSeq cnt eff).2.2.meta.count =
      min (s.meta.count + (cnt - (s.meta.nextSeq - firstSeq))) eff := by
  have hns : ¬ (firstSeq < s.meta.nextSeq ∧ cnt ≤ s.meta.nextSeq - firstSeq) := by
    omega
  have hsk : (if firstSeq < s.meta.nextSeq then s.meta.nextSeq - firstSeq else 0)
      = s.meta.nextSeq - firstSeq := if_pos hlt
  simp only [continueAppend, if_neg hns, hsk]
  obtain ⟨lh, lc, ld, ln, ll, lm, li, _, _, _, _, _⟩ :=
    appendLoop_char eff psize firstSeq payloads adjTsMs
      (cnt - (s.meta.nextSeq - firstSeq)) (s.meta.nextSeq - firstSeq)
      { meta := s.meta, segments := s.segments,
        segBuf := List.replicate (s.meta.recordsPerSegment * s.meta.recordSize) 0,
        currentSegIdx := none, segDirty := false, outLastSeq := 0 }
      hcle hdrops (by omega)
  simp only [flushSeg_meta, flushSeg_outLastSeq]
  refine ⟨trivial, ?_, ?_, ?_⟩
  · rw [ll, if_neg (by omega)]
    omega
  · rw [ln, if_neg (by omega)]
    omega
  · rw [lc]

/-- C5: `appendBatch` sequence-number handling.  (1) When the stored
`meta.count` is 0 the store aligns `nextSeq = firstSeq` before appending, so
the whole batch is written and `nextSeq` ends at `firstSeq + count`.
(2) When `firstSeq > meta.nextSeq` (sequence gap) the store is erased and the
meta re-initialised with `nextSeq = firstSeq` (the embedding's gap branch
drops all segment blobs and rebuilds the meta from `resetMeta`); the batch is
then appended onto the fresh ring: `importSeq` restarts at 0, the head
restarts at 0 and ends at `count mod maxEntries`, and exactly
`count - min count eff` drops are recorded.  (3) When `firstSeq < meta.nextSeq`
and all entries are already stored the call succeeds with
`lastSeq = nextSeq - 1` and the store is completely unchanged.  (4) When only
`nextSeq - firstSeq` leading entries are already stored, exactly those are
skipped and the rest appended. -/
theorem c5_append_batch_cases :
    (∀ (s : NvsStoreModel) (payloads adjTsMs : List Nat)
        (psize firstSeq cnt eff : Nat),
      s.ready = true → s.metaValid = true → psize = s.meta.payloadSize →
      cnt ≠ 0 → cnt ≤ adjTsMs.length → cnt * psize ≤ payloads.length →
      (if 0 < s.effectiveMaxEntries then s.effectiveMaxEntries
       else s.meta.maxEntries) = eff →
      eff ≠ 0 → s.meta.drops + cnt < U32LIM → firstSeq + cnt < U32LIM →
      s.meta.count = 0 →
      ((s.appendBatch payloads psize adjTsMs firstSeq cnt).1 = true ∧
       (s.appendBatch payloads psize adjTsMs firstSeq cnt).2.1 =
         firstSeq + cnt - 1 ∧
       (s.appendBatch payloads psize adjTsMs firstSeq cnt).2.2.meta.nextSeq =
         firstSeq + cnt ∧
       (s.appendBatch payloads psize adjTsMs firstSeq cnt).2.2.meta.count =
         min cnt eff)) ∧
    (∀ (s : NvsStoreModel) (payloads adjTsMs : List Nat)
        (psize firstSeq cnt eff : Nat),
      s.ready = true → s.metaValid = true → psize = s.meta.payloadSize →
      cnt ≠ 0 → cnt ≤ adjTsMs.length → cnt * psize ≤ payloads.length →
      (if 0 < s.effectiveMaxEntries then s.effectiveMaxEntries
       else s.meta.maxEntries) = eff →
      eff ≠ 0 → firstSeq + cnt < U32LIM → psize + 4 ≤ 4000 →
      0 < s.meta.maxEntries →
      s.meta.count ≠ 0 → s.meta.nextSeq < firstSeq →
      ((s.appendBatch payloads psize adjTsMs firstSeq cnt).1 = true ∧
       (s.appendBatch payloads psize adjTsMs firstSeq cnt).2.1 =
         firstSeq + cnt - 1 ∧
       (s.appendBatch payloads psize adjTsMs firstSeq cnt).2.2.meta.nextSeq =
         firstSeq + cnt ∧
       (s.appendBatch payloads psize adjTsMs firstSeq cnt).2.2.meta.count =
         min cnt eff ∧
       (s.appendBatch payloads psize adjTsMs firstSeq cnt).2.2.meta.importSeq = 0 ∧
       (s.appendBatch payloads psize adjTsMs firstSeq cnt).2.2.meta.drops =
         cnt - min cnt eff ∧
       (s.appendBatch payloads psize adjTsMs firstSeq cnt).2.2.meta.head =
         cnt % s.meta.maxEntries)) ∧
    (∀ (s : NvsStoreModel) (payloads adjTsMs : List Nat)
        (psize firstSeq cnt eff : Nat),
      s.ready = true → s.metaValid = true → psize = s.meta.payloadSize →
      cnt ≠ 0 → cnt ≤ adjTsMs.length → cnt * psize ≤ payloads.length →
      (if 0 < s.effectiveMaxEntries then s.effectiveMaxEntries
       else s.meta.maxEntries) = eff →
      eff ≠ 0 →
      s.meta.count ≠ 0 → firstSeq < s.meta.nextSeq →
      cnt ≤ s.meta.nextSeq - firstSeq →
      s.appendBatch payloads psize adjTsMs firstSeq cnt =
        (true, s.meta.nextSeq - 1, s)) ∧
    (∀ (s : NvsStoreModel) (payloads adjTsMs : List Nat)
        (psize firstSeq cnt eff : Nat),
      s.ready = true → s.metaValid = true → psize = s.meta.payloadSize →
      cnt ≠ 0 → cnt ≤ adjTsMs.length → cnt * psize ≤ payloads.length →
      (if 0 < s.effectiveMaxEntries then s.effectiveMaxEntries
       else s.meta.maxEntries) = eff →
      eff ≠ 0 → s.meta.count ≤ eff →
      s.meta.drops + (cnt - (s.meta.nextSeq - firstSeq)) < U32LIM →
      firstSeq + cnt < U32LIM →
      s.meta.count ≠ 0 → firstSeq < s.meta.nextSeq →
      s.meta.nextSeq - firstSeq < cnt →
      ((s.appendBatch payloads psize adjTsMs firstSeq cnt).1 = true ∧
       (s.appendBatch payloads psize adjTsMs firstSeq cnt).2.1 =
         firstSeq + cnt - 1 ∧
       (s.appendBatch payloads psize adjTsMs firstSeq cnt).2.2.meta.nextSeq =
         firstSeq + cnt ∧
       (s.appendBatch payloads psize adjTsMs firstSeq cnt).2.2.meta.count =
         min (s.meta.count + (cnt - (s.meta.nextSeq - firstSeq))) eff)) := by
  refine ⟨?_, ?_, ?_, ?_⟩
  · intro s payloads adjTsMs psize firstSeq cnt eff hready hvalid hps hcnt hadj
      hpl heffdef heff0 hdrops hseqlim hc0
    simp only [NvsStoreModel.appendBatch, heffdef]
    rw [if_neg (show ¬ ¬ (s.ready = true ∧ s.metaValid = true) by
        simp [hready, hvalid]),
      if_neg (show ¬ psize ≠ s.meta.payloadSize by simp [hps]),
      if_neg (show ¬ (cnt = 0 ∨ adjTsMs.length < cnt) by omega),
      if_neg (Nat.not_lt.mpr hpl), if_neg heff0, if_pos hc0]
    obtain ⟨a1, a2, a3, a4, _, _, _, _⟩ := continueAppend_noskip
      { s with meta := { s.meta with nextSeq := firstSeq } }
      payloads psize adjTsMs firstSeq cnt eff (Nat.le_refl firstSeq)
      (by show s.meta.count ≤ eff; omega) hcnt
      (by show s.meta.drops + cnt < U32LIM; omega) hseqlim
    refine ⟨a1, a2, a3, ?_⟩
    rw [a4]
    show min (s.meta.count + cnt) eff = min cnt eff
    omega
  · intro s payloads adjTsMs psize firstSeq cnt eff hready hvalid hps hcnt hadj
      hpl heffdef heff0 hseqlim hp4 hM hc0 hgap
    have hrps : (resetMetaFields psize s.meta.timestampBytes
        s.meta.timestampResolutionUs s.meta.maxEntries).recordsPerSegment =
        4000 / (psize + 4) := by
      simp [resetMetaFields, OFFLINE_NVS_SEGMENT_BYTES]
    have hdivpos : 0 < 4000 / (psize + 4) := Nat.div_pos hp4 (by omega)
    simp only [NvsStoreModel.appendBatch, heffdef]
    rw [if_neg (show ¬ ¬ (s.ready = true ∧ s.metaValid = true) by
        simp [hready, hvalid]),
      if_neg (show ¬ psize ≠ s.meta.payloadSize by simp [hps]),
      if_neg (show ¬ (cnt = 0 ∨ adjTsMs.length < cnt) by omega),
      if_neg (Nat.not_lt.mpr hpl), if_neg heff0, if_neg hc0, if_pos hgap,
      if_neg (show ¬ (resetMetaFields psize s.meta.timestampBytes
          s.meta.timestampResolutionUs s.meta.maxEntries).recordsPerSegment = 0
        by omega)]
    obtain ⟨a1, a2, a3, a4, a5, a6, a7, a8⟩ := continueAppend_noskip
      { segments := [], ready := true, metaValid := true,
        meta := { resetMetaFields psize s.meta.timestampBytes
            s.meta.timestampResolutionUs s.meta.maxEntries with
          nextSeq := firstSeq },
        effectiveMaxEntries := s.effectiveMaxEntries }
      payloads psize adjTsMs firstSeq cnt eff
      (by simp [resetMetaFields])
      (by simp [resetMetaFields])
      hcnt
      (by simp [resetMetaFields]; omega)
      hseqlim
    refine ⟨a1, a2, a3, ?_, ?_, ?_, ?_⟩
    · rw [a4]
      simp [resetMetaFields]
    · rw [a6]
      simp [resetMetaFields]
    · rw [a5]
      simp [resetMetaFields]
    · rw [a7 (by simp [resetMetaFields]; omega)]
      simp [resetMetaFields]
  · intro s payloads adjTsMs psize firstSeq cnt eff hready hvalid hps hcnt hadj
      hpl heffdef heff0 hc0 hlt hall
    simp only [NvsStoreModel.appendBatch, heffdef]
    rw [if_neg (show ¬ ¬ (s.ready = true ∧ s.metaValid = true) by
        simp [hready, hvalid]),
      if_neg (show ¬ psize ≠ s.meta.payloadSize by simp [hps]),
      if_neg (show ¬ (cnt = 0 ∨ adjTsMs.length < cnt) by omega),
      if_neg (Nat.not_lt.mpr hpl), if_neg heff0, if_neg hc0,
      if_neg (show ¬ s.meta.nextSeq < firstSeq by omega)]
    exact continueAppend_skip_all s payloads psize adjTsMs firstSeq cnt eff
      hlt hall
  · intro s payloads adjTsMs psize firstSeq cnt eff hready hvalid hps hcnt hadj
      hpl heffdef heff0 hcle hdrops hseqlim hc0 hlt hpart
    simp only [NvsStoreModel.appendBatch, heffdef]
    rw [if_neg (show ¬ ¬ (s.ready = true ∧ s.metaValid = true) by
        simp [hready, hvalid]),
      if_neg (show ¬ psize ≠ s.meta.payloadSize by simp [hps]),
      if_neg (show ¬ (cnt = 0 ∨ adjTsMs.length < cnt) by omega),
      if_neg (Nat.not_lt.mpr hpl), if_neg heff0, if_neg hc0,
      if_neg (show ¬ s.meta.nextSeq < firstSeq by omega)]
    exact continueAppend_partial s payloads psize adjTsMs firstSeq cnt eff
      hlt hpart hcle hdrops hseqlim

theorem c5_append_batch_cases_witness :
    (c10Store0.ready = true ∧ c10Store0.metaValid = true ∧
      c10Store0.meta.count = 0) ∧
      (c10Store0.appendBatch [1, 2, 3, 4] 4 [123] 0 1).1 = true ∧
      (c10Store0.appendBatch [1, 2, 3, 4] 4 [123] 0 1).2.1 = 0 ∧
      (c10Store0.appendBatch [1, 2, 3, 4] 4 [123] 0 1).2.2.meta.nextSeq = 1 :=
  ⟨by decide, by
    have h := c5_append_batch_cases.1 c10Store0 [1, 2, 3, 4] [123] 4 0 1 8
      (by decide) (by decide) (by decide) (by decide) (by decide) (by decide)
      (by decide) (by decide) (by decide) (by decide) (by decide)
    exact ⟨h.1, by rw [h.2.1], h.2.2.1⟩⟩

/-! ## C1: monotonic adjusted timestamps across raw-timestamp wraps -/

theorem validBytes_getD (d : List Nat) (hv : ValidBytes d) (i : Nat) :
    d.getD i 0 < 256 := by
  rw [List.getD_eq_getElem?_getD]
  cases h : d[i]? with
  | none => simp
  | some x =>
    simp only [Option.getD_some]
    exact hv x (List.getElem?_mem h)

theorem validBytes_headD (d : List Nat) (hv : ValidBytes d) : d.headD 0 < 256 := by
  cases d with
  | nil => simp
  | cons x xs =>
    simp only [List.headD_cons]
    exact hv x (List.mem_cons_self x xs)

/-- The extracted device timestamp times the millisecond resolution never
exceeds the wrap period computed by `init`. -/
theorem extract_mul_le_wrap (tb tr : Nat) (d : List Nat) (hv : ValidBytes d)
    (hres : tr < U32LIM) :
    extractTimestampVal tb d * (tr / 1000) ≤
      2 ^ (tb * 8) % U64LIM * (tr / 1000) % U64LIM := by
  have hresMs : tr / 1000 < U32LIM := Nat.lt_of_le_of_lt (Nat.div_le_self tr 1000) hres
  by_cases h1 : tb = 1
  · subst h1
    have hx := validBytes_headD d hv
    have h256 : (2 : Nat) ^ (1 * 8) % U64LIM = 256 := by decide
    rw [extractTimestampVal, if_pos rfl, h256,
      Nat.mod_eq_of_lt (by
        have hb1 : 256 * (tr / 1000) ≤ 256 * (U32LIM - 1) :=
          Nat.mul_le_mul_left 256 (by omega)
        have hb2 : 256 * (U32LIM - 1) < U64LIM := by decide
        omega)]
    exact Nat.mul_le_mul_right _ (by omega)
  · by_cases h2 : tb = 2
    · subst h2
      have hx0 := validBytes_headD d hv
      have hx1 := validBytes_getD d hv 1
      have h65536 : (2 : Nat) ^ (2 * 8) % U64LIM = 65536 := by decide
      rw [extractTimestampVal, if_neg (by omega), if_pos rfl, h65536,
        Nat.mod_eq_of_lt (by
          have hb1 : 65536 * (tr / 1000) ≤ 65536 * (U32LIM - 1) :=
            Nat.mul_le_mul_left 65536 (by omega)
          have hb2 : 65536 * (U32LIM - 1) < U64LIM := by decide
          omega)]
      have hbound : d.headD 0 * 256 + d.getD 1 0 ≤ 65535 := by omega
      exact Nat.mul_le_mul_right _ (by omega)
    · by_cases h4 : tb = 4
      · subst h4
        have hx2 := validBytes_getD d hv 2
        have hx3 := validBytes_getD d hv 3
        have h2p32 : (2 : Nat) ^ (4 * 8) % U64LIM = U32LIM := by decide
        rw [extractTimestampVal, if_neg (by omega), if_neg (by omega),
          if_pos rfl, h2p32,
          Nat.mod_eq_of_lt (by
            have hb1 : U32LIM * (tr / 1000) ≤ U32LIM * (U32LIM - 1) :=
              Nat.mul_le_mul_left U32LIM (by omega)
            have hb2 : U32LIM * (U32LIM - 1) < U64LIM := by decide
            omega)]
        have hbound : d.getD 2 0 * 256 + d.getD 3 0 ≤ 65535 := by omega
        have hle : (65535 : Nat) ≤ U32LIM := by decide
        exact Nat.mul_le_mul_right _ (by omega)
      · rw [extractTimestampVal, if_neg (by omega), if_neg (by omega),
          if_neg (by omega)]
        simp

/-- Under an accepted `put` whose 64-bit adjusted timestamp does not
overflow, the new base plus the new raw component reconstruct the adjusted
timestamp exactly. -/
theorem put_base_eq (s : ODSState) (t q : Nat) (d : List Nat)
    (hconf : s.configuredP) (hlen : d.length = s.payloadSize)
    (hbound : s.putAdjustedTsMs t d < U64LIM) :
    (s.put t q d).2.timestampBaseMs +
      extractTimestampVal s.timestampBytes d *
        (s.timestampResolutionUs / 1000) = s.putAdjustedTsMs t d := by
  have hg : ¬ (¬ s.configuredP ∨ d.length ≠ s.payloadSize) := by
    simp [hconf, hlen]
  by_cases hw : s.lastTimestampValid = true ∧
      extractTimestampVal s.timestampBytes d < s.lastTimestampVal
  · simp only [ODSState.putAdjustedTsMs, if_pos hw] at hbound ⊢
    simp only [ODSState.put, if_neg hg, if_pos hw]
    rw [Nat.mod_eq_of_lt (by omega)]
  · simp only [ODSState.putAdjustedTsMs, if_neg hw] at hbound ⊢
    simp only [ODSState.put, if_neg hg, if_neg hw]

/-- The wrap rule of `put`: the base advances by `wrapMs` (64-bit add) and
the wrap counter increments (32-bit add) exactly when the new raw timestamp
is smaller than the previous one. -/
theorem put_wrap_rule (s : ODSState) (t q : Nat) (d : List Nat)
    (hconf : s.configuredP) (hlen : d.length = s.payloadSize)
    (hvalid : s.lastTimestampValid = true) :
    (extractTimestampVal s.timestampBytes d < s.lastTimestampVal →
      (s.put t q d).2.timestampBaseMs =
        (s.timestampBaseMs + s.timestampWrapMs) % U64LIM ∧
      (s.put t q d).2.tsWrapCount = (s.tsWrapCount + 1) % U32LIM) ∧
    (¬ extractTimestampVal s.timestampBytes d < s.lastTimestampVal →
      (s.put t q d).2.timestampBaseMs = s.timestampBaseMs ∧
      (s.put t q d).2.tsWrapCount = s.tsWrapCount) := by
  have hg : ¬ (¬ s.configuredP ∨ d.length ≠ s.payloadSize) := by
    simp [hconf, hlen]
  constructor
  · intro hlt
    simp only [ODSState.put, if_neg hg, if_pos (And.intro hvalid hlt),
      if_pos hvalid]
    exact ⟨trivial, trivial⟩
  · intro hge
    simp only [ODSState.put, if_neg hg,
      if_neg (show ¬ (s.lastTimestampValid = true ∧
        extractTimestampVal s.timestampBytes d < s.lastTimestampVal) from
        fun hc => hge hc.2), if_pos hvalid]
    exact ⟨trivial, trivial⟩

/-- Entries after an accepted `put` below capacity: the occupied window keeps
its entries and the new payload becomes the newest entry. -/
theorem put_entry_nonfull (s : ODSState) (t q : Nat) (d : List Nat)
    (hinv : ODSBasicInv s) (hconf : s.configuredP)
    (hlen : d.length = s.payloadSize) (hnf : s.count < s.maxEntries) :
    (∀ i, i < s.count →
      (s.put t q d).2.entryPayload i = s.entryPayload i ∧
      (s.put t q d).2.entryAdj i = s.entryAdj i) ∧
    (s.put t q d).2.entryPayload s.count = d ∧
    (s.put t q d).2.entryAdj s.count = s.putAdjustedTsMs t d % U32LIM := by
  obtain ⟨_, hring, hadj, hhead, hcount, _, hmax, _, _, _, _, _, _, _⟩ :=
    put_proj s t q d hconf hlen
  have hm : 0 < s.maxEntries := hconf.1
  have hh : s.headIdx < s.maxEntries := hinv.head_lt hm
  have hslotEq : ∀ i, (s.put t q d).2.entrySlot i = s.entrySlot i := by
    intro i
    simp only [ODSState.entrySlot, hhead, hcount, hmax]
    rw [if_pos hnf]
    have e1 : (s.headIdx + 1) % s.maxEntries + s.maxEntries - (s.count + 1) + i =
        (s.headIdx + 1) % s.maxEntries + (s.maxEntries - s.count - 1 + i) := by
      omega
    rw [e1, Nat.mod_add_mod]
    congr 1
    omega
  have hslotNe : ∀ i, i < s.count → s.headIdx ≠ s.entrySlot i := by
    intro i hi hcontra
    have e2 : s.headIdx + s.maxEntries - s.count + i =
        s.headIdx + (s.maxEntries - s.count + i) := by omega
    rw [ODSState.entrySlot, e2] at hcontra
    exact modAddNe s.headIdx (s.maxEntries - s.count + i) s.maxEntries hh
      (by omega) (by omega) hcontra.symm
  have hse : s.entrySlot s.count = s.headIdx := by
    rw [ODSState.entrySlot]
    have e3 : s.headIdx + s.maxEntries - s.count + s.count =
        s.headIdx + s.maxEntries := by omega
    rw [e3, Nat.add_mod_right, Nat.mod_eq_of_lt hh]
  refine ⟨?_, ?_, ?_⟩
  · intro i hi
    constructor
    · rw [ODSState.entryPayload, hslotEq i, hring,
        getD_set_ne _ _ _ _ _ (hslotNe i hi), ODSState.entryPayload]
    · rw [ODSState.entryAdj, hslotEq i, hadj,
        getD_set_ne _ _ _ _ _ (hslotNe i hi), ODSState.entryAdj]
  · rw [ODSState.entryPayload, hslotEq _, hring, hse]
    exact getD_set_self _ _ _ _ (by rw [hinv.ring_len]; exact hh)
  · rw [ODSState.entryAdj, hslotEq _, hadj, hse]
    exact getD_set_self _ _ _ _ (by rw [hinv.adj_len]; exact hh)

/-- Entries after an accepted `put` at capacity: every remaining entry shifts
down one logical position and the new payload becomes the newest entry. -/
theorem put_entry_full (s : ODSState) (t q : Nat) (d : List Nat)
    (hinv : ODSBasicInv s) (hconf : s.configuredP)
    (hlen : d.length = s.payloadSize) (hf : s.count = s.maxEntries) :
    (∀ i, i + 1 < s.maxEntries →
      (s.put t q d).2.entryPayload i = s.entryPayload (i + 1) ∧
      (s.put t q d).2.entryAdj i = s.entryAdj (i + 1)) ∧
    (s.put t q d).2.entryPayload (s.maxEntries - 1) = d ∧
    (s.put t q d).2.entryAdj (s.maxEntries - 1) =
      s.putAdjustedTsMs t d % U32LIM := by
  obtain ⟨_, hring, hadj, hhead, hcount, _, hmax, _, _, _, _, _, _, _⟩ :=
    put_proj s t q d hconf hlen
  have hm : 0 < s.maxEntries := hconf.1
  have hh : s.headIdx < s.maxEntries := hinv.head_lt hm
  have hnlt : ¬ s.count < s.maxEntries := by omega
  have hslot : ∀ i, (s.put t q d).2.entrySlot i =
      (s.headIdx + (i + 1)) % s.maxEntries := by
    intro i
    simp only [ODSState.entrySlot, hhead, hcount, hmax]
    rw [if_neg hnlt, hf, Nat.add_sub_cancel, Nat.mod_add_mod]
    congr 1
    omega
  have hslotS : ∀ i, s.entrySlot (i + 1) = (s.headIdx + (i + 1)) % s.maxEntries := by
    intro i
    simp only [ODSState.entrySlot, hf]
    congr 1
    omega
  refine ⟨?_, ?_, ?_⟩
  · intro i hi
    have hne : s.headIdx ≠ (s.headIdx + (i + 1)) % s.maxEntries :=
      fun hcontra =>
        modAddNe s.headIdx (i + 1) s.maxEntries hh (by omega) (by omega)
          hcontra.symm
    constructor
    · rw [ODSState.entryPayload, hslot i, hring,
        getD_set_ne _ _ _ _ _ hne, ODSState.entryPayload, hslotS i]
    · rw [ODSState.entryAdj, hslot i, hadj,
        getD_set_ne _ _ _ _ _ hne, ODSState.entryAdj, hslotS i]
  · have hsl : (s.put t q d).2.entrySlot (s.maxEntries - 1) = s.headIdx := by
      rw [hslot]
      have e1 : s.headIdx + (s.maxEntries - 1 + 1) = s.headIdx + s.maxEntries := by
        omega
      rw [e1, Nat.add_mod_right, Nat.mod_eq_of_lt hh]
    rw [ODSState.entryPayload, hsl, hring]
    exact getD_set_self _ _ _ _ (by rw [hinv.ring_len]; exact hh)
  · have hsl : (s.put t q d).2.entrySlot (s.maxEntries - 1) = s.headIdx := by
      rw [hslot]
      have e1 : s.headIdx + (s.maxEntries - 1 + 1) = s.headIdx + s.maxEntries := by
        omega
      rw [e1, Nat.add_mod_right, Nat.mod_eq_of_lt hh]
    rw [ODSState.entryAdj, hsl, hadj]
    exact getD_set_self _ _ _ _ (by rw [hinv.adj_len]; exact hh)

/-- Dropping `k` oldest entries shifts the logical window. -/
theorem entry_shift_sub (s : ODSState) (k : Nat) (hk : k ≤ s.count)
    (hcle : s.count ≤ s.maxEntries) (i : Nat) :
    ({ s with count := s.count - k } : ODSState).entryPayload i =
      s.entryPayload (i + k) ∧
    ({ s with count := s.count - k } : ODSState).entryAdj i =
      s.entryAdj (i + k) := by
  have e1 : s.headIdx + s.maxEntries - (s.count - k) + i =
      s.headIdx + s.maxEntries - s.count + (i + k) := by omega
  constructor
  · simp only [ODSState.entryPayload, ODSState.entrySlot, e1]
  · simp only [ODSState.entryAdj, ODSState.entrySlot, e1]

/-- The state left behind by `get` only drops oldest entries. -/
theorem get_shape (s : ODSState) (mr : Nat) (c : Bool) (si mb : Nat) :
    ∃ k, (s.get mr c si mb).2.2.2 = { s with count := s.count - k } := by
  simp only [ODSState.get]
  split_ifs <;> first | exact ⟨0, rfl⟩ | exact ⟨_, rfl⟩

/-- The state left behind by `consume` only drops oldest entries. -/
theorem consume_shape (s : ODSState) (n : Nat) :
    ∃ k, (s.consume n).2 = { s with count := s.count - k } := by
  simp only [ODSState.consume]
  split_ifs <;> first | exact ⟨0, rfl⟩ | exact ⟨_, rfl⟩

theorem reachTs_reach (s : ODSState) (h : ODSReachTs s) : ODSReach s := by
  induction h with
  | initial => exact ODSReach.initial
  | init s m p tb tr _ _ ih => exact ODSReach.init s m p tb tr ih
  | put s t q d _ _ _ ih => exact ODSReach.put s t q d ih
  | get s mr c si mb _ ih => exact ODSReach.get s mr c si mb ih
  | consume s n _ ih => exact ODSReach.consume s n ih
  | clear s _ ih => exact ODSReach.clear s ih

/-- Dropping oldest entries preserves the timestamp invariant. -/
theorem tsInv_sub (s : ODSState) (hinv : ODSTsInv s) (k : Nat)
    (hb : ODSBasicInv ({ s with count := s.count - k } : ODSState)) :
    ODSTsInv ({ s with count := s.count - k } : ODSState) := by
  have hcle := hinv.basic.count_le
  rcases le_or_lt k s.count with hk | hk
  · refine ⟨hb, hinv.wrap_def, hinv.res_lt, hinv.wrap_ge, hinv.base_lt,
      ?_, ?_, ?_⟩
    · intro h0
      have h0s : 0 < s.count := by
        have hc : ({ s with count := s.count - k } : ODSState).count =
            s.count - k := rfl
        rw [hc] at h0
        omega
      obtain ⟨hval, hnewest⟩ := hinv.newest h0s
      refine ⟨hval, ?_⟩
      rw [(entry_shift_sub s k hk hcle (s.count - k - 1)).2]
      have he : s.count - k - 1 + k = s.count - 1 := by
        have hc : ({ s with count := s.count - k } : ODSState).count =
            s.count - k := rfl
        rw [hc] at h0
        omega
      rw [he]
      exact hnewest
    · intro i hi
      have hc : ({ s with count := s.count - k } : ODSState).count =
          s.count - k := rfl
      rw [hc] at hi
      rw [(entry_shift_sub s k hk hcle i).1, (entry_shift_sub s k hk hcle i).2]
      exact hinv.entry_ge (i + k) (by omega)
    · intro i hi
      have hc : ({ s with count := s.count - k } : ODSState).count =
          s.count - k := rfl
      rw [hc] at hi
      rw [(entry_shift_sub s k hk hcle i).2, (entry_shift_sub s k hk hcle (i + 1)).2]
      have he : i + 1 + k = i + k + 1 := by omega
      rw [he]
      exact hinv.chain (i + k) (by omega)
  · have h0 : s.count - k = 0 := by omega
    refine ⟨hb, hinv.wrap_def, hinv.res_lt, hinv.wrap_ge, hinv.base_lt,
      ?_, ?_, ?_⟩
    · intro h
      have hc : ({ s with count := s.count - k } : ODSState).count =
          s.count - k := rfl
      rw [hc, h0] at h
      omega
    · intro i hi
      have hc : ({ s with count := s.count - k } : ODSState).count =
          s.count - k := rfl
      rw [hc, h0] at hi
      omega
    · intro i hi
      have hc : ({ s with count := s.count - k } : ODSState).count =
          s.count - k := rfl
      rw [hc, h0] at hi
      omega

theorem putAdjusted_ge_newest (s : ODSState) (t : Nat) (d : List Nat)
    (hval : s.lastTimestampValid = true)
    (hwge : s.lastTimestampVal * (s.timestampResolutionUs / 1000) ≤
      s.timestampWrapMs) :
    s.timestampBaseMs + s.lastTimestampVal * (s.timestampResolutionUs / 1000) ≤
      s.putAdjustedTsMs t d := by
  by_cases hwlt : extractTimestampVal s.timestampBytes d < s.lastTimestampVal
  · have hpa : s.putAdjustedTsMs t d = s.timestampBaseMs + s.timestampWrapMs +
        extractTimestampVal s.timestampBytes d *
          (s.timestampResolutionUs / 1000) := by
      simp [ODSState.putAdjustedTsMs, hval, hwlt]
    omega
  · have hpa : s.putAdjustedTsMs t d = s.timestampBaseMs +
        extractTimestampVal s.timestampBytes d *
          (s.timestampResolutionUs / 1000) := by
      simp [ODSState.putAdjustedTsMs, hval, hwlt]
    have hmul : s.lastTimestampVal * (s.timestampResolutionUs / 1000) ≤
        extractTimestampVal s.timestampBytes d *
          (s.timestampResolutionUs / 1000) :=
      Nat.mul_le_mul_right _ (by omega)
    omega

theorem putAdjusted_ge_ts (s : ODSState) (t : Nat) (d : List Nat) :
    extractTimestampVal s.timestampBytes d * (s.timestampResolutionUs / 1000) ≤
      s.putAdjustedTsMs t d := by
  simp only [ODSState.putAdjustedTsMs]
  omega

/-- Every state reachable with byte-valued payloads and non-truncating
adjusted timestamps satisfies the timestamp-reconstruction invariant. -/
theorem reachTs_inv (s : ODSState) (h : ODSReachTs s) : ODSTsInv s := by
  induction h with
  | initial =>
    refine ⟨reach_basic_inv _ ODSReach.initial, by decide, by decide, ?_, ?_,
      ?_, ?_, ?_⟩
    · intro h; exact nomatch h
    · intro h; exact nomatch h
    · intro h; exact absurd h (Nat.lt_irrefl 0)
    · intro i hi; exact absurd hi (Nat.not_lt_zero i)
    · intro i hi; exact absurd hi (Nat.not_lt_zero (i + 1))
  | init s m p tb tr htr hs ih =>
    refine ⟨reach_basic_inv _ (ODSReach.init s m p tb tr (reachTs_reach s hs)),
      rfl, htr, ?_, ?_, ?_, ?_, ?_⟩
    · intro h; exact nomatch h
    · intro h; exact nomatch h
    · intro h; exact absurd h (Nat.lt_irrefl 0)
    · intro i hi; exact absurd hi (Nat.not_lt_zero i)
    · intro i hi; exact absurd hi (Nat.not_lt_zero (i + 1))
  | clear s hs ih =>
    refine ⟨reach_basic_inv _ (ODSReach.clear s (reachTs_reach s hs)),
      ih.wrap_def, ih.res_lt, ?_, ?_, ?_, ?_, ?_⟩
    · intro h; exact absurd h (by simp [ODSState.clear])
    · intro h; exact absurd h (by simp [ODSState.clear])
    · intro h; exact absurd h (Nat.lt_irrefl 0)
    · intro i hi; exact absurd hi (Nat.not_lt_zero i)
    · intro i hi; exact absurd hi (Nat.not_lt_zero (i + 1))
  | get s mr c si mb hs ih =>
    obtain ⟨k, hek⟩ := get_shape s mr c si mb
    have hb : ODSBasicInv (s.get mr c si mb).2.2.2 :=
      reach_basic_inv _ (ODSReach.get s mr c si mb (reachTs_reach s hs))
    rw [hek] at hb ⊢
    exact tsInv_sub s ih k hb
  | consume s n hs ih =>
    obtain ⟨k, hek⟩ := consume_shape s n
    have hb : ODSBasicInv (s.consume n).2 :=
      reach_basic_inv _ (ODSReach.consume s n (reachTs_reach s hs))
    rw [hek] at hb ⊢
    exact tsInv_sub s ih k hb
  | put s t q d hv hbound hs ih =>
    by_cases hg : ¬ s.configuredP ∨ d.length ≠ s.payloadSize
    · rw [c9_put_reject s t q d hg]
      exact ih
    · push_neg at hg
      obtain ⟨hconf, hlen⟩ := hg
      have hbasic1 : ODSBasicInv (s.put t q d).2 :=
        reach_basic_inv _ (ODSReach.put s t q d (reachTs_reach s hs))
      obtain ⟨_, _, _, _, hcount, _, hmax, _, htb, htr, hwms, hlv, hvalid2, _⟩ :=
        put_proj s t q d hconf hlen
      have hb64 : s.putAdjustedTsMs t d < U64LIM :=
        Nat.lt_trans hbound (by decide)
      have hbase := put_base_eq s t q d hconf hlen hb64
      have hres := ih.res_lt
      have htvw : extractTimestampVal s.timestampBytes d *
          (s.timestampResolutionUs / 1000) ≤ s.timestampWrapMs := by
        rw [ih.wrap_def]
        exact extract_mul_le_wrap s.timestampBytes s.timestampResolutionUs d hv
          hres
      have hmodeq : s.putAdjustedTsMs t d % U32LIM = s.putAdjustedTsMs t d :=
        Nat.mod_eq_of_lt hbound
      refine ⟨hbasic1, ?_, ?_, ?_, ?_, ?_, ?_, ?_⟩
      · rw [hwms, htb, htr]
        exact ih.wrap_def
      · rw [htr]
        exact hres
      · intro _
        rw [hlv, htr, hwms]
        exact htvw
      · intro _
        rw [hlv, htr, hbase]
        exact hbound
      · intro h0
        refine ⟨hvalid2, ?_⟩
        rw [hlv, htr, hbase]
        by_cases hnf : s.count < s.maxEntries
        · have hc1 : (s.put t q d).2.count = s.count + 1 := by
            rw [hcount, if_pos hnf]
          rw [hc1, Nat.add_sub_cancel,
            (put_entry_nonfull s t q d ih.basic hconf hlen hnf).2.2, hmodeq]
        · have hf : s.count = s.maxEntries := by
            have := ih.basic.count_le
            omega
          have hc1 : (s.put t q d).2.count = s.maxEntries := by
            rw [hcount, if_neg hnf, hf]
          rw [hc1,
            (put_entry_full s t q d ih.basic hconf hlen hf).2.2, hmodeq]
      · intro i hi
        rw [htb, htr]
        by_cases hnf : s.count < s.maxEntries
        · have hc1 : (s.put t q d).2.count = s.count + 1 := by
            rw [hcount, if_pos hnf]
          rw [hc1] at hi
          rcases Nat.lt_or_ge i s.count with hio | hin
          · rw [(put_entry_nonfull s t q d ih.basic hconf hlen hnf).1 i hio |>.1,
              (put_entry_nonfull s t q d ih.basic hconf hlen hnf).1 i hio |>.2]
            exact ih.entry_ge i hio
          · have hieq : i = s.count := by omega
            subst hieq
            rw [(put_entry_nonfull s t q d ih.basic hconf hlen hnf).2.1,
              (put_entry_nonfull s t q d ih.basic hconf hlen hnf).2.2, hmodeq]
            have := putAdjusted_ge_ts s t d
            omega
        · have hf : s.count = s.maxEntries := by
            have := ih.basic.count_le
            omega
          have hc1 : (s.put t q d).2.count = s.maxEntries := by
            rw [hcount, if_neg hnf, hf]
          rw [hc1] at hi
          rcases Nat.lt_or_ge (i + 1) s.maxEntries with hio | hin
          · rw [(put_entry_full s t q d ih.basic hconf hlen hf).1 i hio |>.1,
              (put_entry_full s t q d ih.basic hconf hlen hf).1 i hio |>.2]
            exact ih.entry_ge (i + 1) (by omega)
          · have hieq : i = s.maxEntries - 1 := by omega
            subst hieq
            rw [(put_entry_full s t q d ih.basic hconf hlen hf).2.1,
              (put_entry_full s t q d ih.basic hconf hlen hf).2.2, hmodeq]
            have := putAdjusted_ge_ts s t d
            omega
      · intro i hi
        by_cases hnf : s.count < s.maxEntries
        · have hc1 : (s.put t q d).2.count = s.count + 1 := by
            rw [hcount, if_pos hnf]
          rw [hc1] at hi
          rcases Nat.lt_or_ge (i + 1) s.count with hio | hin
          · rw [(put_entry_nonfull s t q d ih.basic hconf hlen hnf).1 i
              (by omega) |>.2,
              (put_entry_nonfull s t q d ih.basic hconf hlen hnf).1 (i + 1)
              hio |>.2]
            exact ih.chain i hio
          · have hieq : i + 1 = s.count := by omega
            have h0 : 0 < s.count := by omega
            obtain ⟨hval, hnewest⟩ := ih.newest h0
            have hL : (s.put t q d).2.entryAdj i = s.entryAdj i :=
              ((put_entry_nonfull s t q d ih.basic hconf hlen hnf).1 i
                (by omega)).2
            have hR : (s.put t q d).2.entryAdj (i + 1) =
                s.putAdjustedTsMs t d := by
              rw [hieq,
                (put_entry_nonfull s t q d ih.basic hconf hlen hnf).2.2, hmodeq]
            rw [hL, hR]
            have hiv : s.entryAdj i = s.timestampBaseMs +
                s.lastTimestampVal * (s.timestampResolutionUs / 1000) := by
              have he : i = s.count - 1 := by omega
              rw [he]
              exact hnewest
            rw [hiv]
            exact putAdjusted_ge_newest s t d hval (ih.wrap_ge hval)
        · have hf : s.count = s.maxEntries := by
            have := ih.basic.count_le
            omega
          have hc1 : (s.put t q d).2.count = s.maxEntries := by
            rw [hcount, if_neg hnf, hf]
          rw [hc1] at hi
          rcases Nat.lt_or_ge (i + 2) s.maxEntries with hio | hin
          · rw [(put_entry_full s t q d ih.basic hconf hlen hf).1 i
              (by omega) |>.2,
              (put_entry_full s t q d ih.basic hconf hlen hf).1 (i + 1)
              (by omega) |>.2]
            exact ih.chain (i + 1) (by omega)
          · have hieq : i + 1 = s.maxEntries - 1 := by omega
            have h0 : 0 < s.count := by omega
            obtain ⟨hval, hnewest⟩ := ih.newest h0
            have hL : (s.put t q d).2.entryAdj i = s.entryAdj (i + 1) :=
              ((put_entry_full s t q d ih.basic hconf hlen hf).1 i hi).2
            have hR : (s.put t q d).2.entryAdj (i + 1) =
                s.putAdjustedTsMs t d := by
              rw [hieq,
                (put_entry_full s t q d ih.basic hconf hlen hf).2.2, hmodeq]
            rw [hL, hR]
            have hiv : s.entryAdj (i + 1) = s.timestampBaseMs +
                s.lastTimestampVal * (s.timestampResolutionUs / 1000) := by
              have he : i + 1 = s.count - 1 := by omega
              rw [he]
              exact hnewest
            rw [hiv]
            exact putAdjusted_ge_newest s t d hval (ih.wrap_ge hval)

/-- The metadata list returned by `get` is either empty or a contiguous
window of `getMeta` records lying inside the occupied part of the ring. -/
theorem get_metas_shape (s : ODSState) (mr : Nat) (c : Bool) (si mb : Nat) :
    (s.get mr c si mb).2.2.1 = [] ∨
    ∃ n st sq, st + n ≤ s.count ∧
      (s.get mr c si mb).2.2.1 = (List.range n).map (s.getMeta sq st) := by
  simp only [ODSState.get]
  split_ifs <;>
    first
      | (left; rfl)
      | (right; refine ⟨_, _, _, ?_, rfl⟩; omega)

/-- When the stored adjusted timestamp dominates the raw-timestamp component,
the `tsBaseMs`/`ts` pair in a `getMeta` record reconstructs it exactly. -/
theorem getMeta_recon (s : ODSState) (sq st i : Nat)
    (hge : extractTimestampVal s.timestampBytes (s.entryPayload (st + i)) *
      (s.timestampResolutionUs / 1000) ≤ s.entryAdj (st + i)) :
    (s.getMeta sq st i).tsBaseMs + (s.getMeta sq st i).ts *
      (s.timestampResolutionUs / 1000) = s.entryAdj (st + i) := by
  simp only [ODSState.getMeta]
  rw [if_pos hge]
  omega

/-- Under the timestamp invariant, consecutive metadata records returned by
`get` reconstruct non-decreasing adjusted timestamps. -/
theorem get_metas_monotone (s : ODSState) (hinv : ODSTsInv s) (mr : Nat)
    (c : Bool) (si mb : Nat) (i : Nat)
    (hi : i + 1 < (s.get mr c si mb).2.2.1.length) :
    ((s.get mr c si mb).2.2.1.getD i ⟨0, 0, 0⟩).tsBaseMs +
        ((s.get mr c si mb).2.2.1.getD i ⟨0, 0, 0⟩).ts *
          (s.timestampResolutionUs / 1000) ≤
      ((s.get mr c si mb).2.2.1.getD (i + 1) ⟨0, 0, 0⟩).tsBaseMs +
        ((s.get mr c si mb).2.2.1.getD (i + 1) ⟨0, 0, 0⟩).ts *
          (s.timestampResolutionUs / 1000) := by
  rcases get_metas_shape s mr c si mb with hm | ⟨n, st, sq, hle, hm⟩
  · rw [hm] at hi
    simp at hi
  · rw [hm] at hi ⊢
    rw [List.length_map, List.length_range] at hi
    have hgd : ∀ j, j < n →
        ((List.range n).map (s.getMeta sq st)).getD j ⟨0, 0, 0⟩ =
          s.getMeta sq st j := by
      intro j hj
      rw [List.getD_eq_getElem?_getD, List.getElem?_map, List.getElem?_range hj]
      rfl
    rw [hgd i (by omega), hgd (i + 1) (by omega),
      getMeta_recon s sq st i (hinv.entry_ge (st + i) (by omega)),
      getMeta_recon s sq st (i + 1) (hinv.entry_ge (st + (i + 1)) (by omega))]
    have hc := hinv.chain (st + i) (by omega)
    have he : st + (i + 1) = st + i + 1 := by omega
    rw [he]
    exact hc

/-- C1 counterexample to the claim as stated: two valid puts into a ring whose
first capture happens near wall-clock `2 ^ 32` ms.  The raw timestamp drops
from 200 to 100, so the wrap rule fires (`tsWrapCount = 1`) and the 64-bit
adjusted timestamp crosses `2 ^ 32`; but the store truncates it to `uint32_t`,
and the two adjusted timestamps `get` returns (reconstructed from each
record's `tsBaseMs + ts * tsResolutionMs`, here 4294967286 then 146) are
strictly decreasing, refuting the claimed monotonicity. -/
theorem c1_counterexample :
    c1CexState.tsWrapCount = 1 ∧
    (c1CexState.get 2 false 0 0).1 = 2 ∧
    ((c1CexState.get 2 false 0 0).2.2.1.getD 1 ⟨0, 0, 0⟩).tsBaseMs +
        ((c1CexState.get 2 false 0 0).2.2.1.getD 1 ⟨0, 0, 0⟩).ts *
          (c1CexState.timestampResolutionUs / 1000) <
      ((c1CexState.get 2 false 0 0).2.2.1.getD 0 ⟨0, 0, 0⟩).tsBaseMs +
        ((c1CexState.get 2 false 0 0).2.2.1.getD 0 ⟨0, 0, 0⟩).ts *
          (c1CexState.timestampResolutionUs / 1000) := by decide

/-- C1 (amended): (a) on any put into a configured ring after the first
capture, `put` adds `timestampWrapMs` to the timestamp base (64-bit add) and
increments `tsWrapCount` (32-bit add) exactly when the extracted raw
timestamp is smaller than the previous one, and leaves both unchanged
otherwise; (b) provided every payload consists of bytes and every accepted
put's 64-bit adjusted timestamp stays below `2 ^ 32` (so that the `uint32_t`
store does not truncate), the adjusted timestamps reconstructed from the
metadata records of any single `get` call are non-decreasing across
consecutive entries, even across raw-timestamp wraps. -/
theorem c1_wrap_rule_and_get_monotone_amended (s : ODSState) (h : ODSReachTs s)
    (t q : Nat) (d : List Nat) (mr : Nat) (c : Bool) (si mb : Nat) :
    (s.configuredP → d.length = s.payloadSize → s.lastTimestampValid = true →
      ((extractTimestampVal s.timestampBytes d < s.lastTimestampVal →
        (s.put t q d).2.timestampBaseMs =
          (s.timestampBaseMs + s.timestampWrapMs) % U64LIM ∧
        (s.put t q d).2.tsWrapCount = (s.tsWrapCount + 1) % U32LIM) ∧
      (¬ extractTimestampVal s.timestampBytes d < s.lastTimestampVal →
        (s.put t q d).2.timestampBaseMs = s.timestampBaseMs ∧
        (s.put t q d).2.tsWrapCount = s.tsWrapCount))) ∧
    (∀ i, i + 1 < (s.get mr c si mb).2.2.1.length →
      ((s.get mr c si mb).2.2.1.getD i ⟨0, 0, 0⟩).tsBaseMs +
          ((s.get mr c si mb).2.2.1.getD i ⟨0, 0, 0⟩).ts *
            (s.timestampResolutionUs / 1000) ≤
        ((s.get mr c si mb).2.2.1.getD (i + 1) ⟨0, 0, 0⟩).tsBaseMs +
          ((s.get mr c si mb).2.2.1.getD (i + 1) ⟨0, 0, 0⟩).ts *
            (s.timestampResolutionUs / 1000)) := by
  refine ⟨fun hconf hlen hvalid => put_wrap_rule s t q d hconf hlen hvalid, ?_⟩
  intro i hi
  exact get_metas_monotone s (reachTs_inv s h) mr c si mb i hi

set_option maxRecDepth 4000 in
/-- C1 amended-theorem witness: scenario S1 (raw timestamps 60000, 65535, 0,
500 with 2 timestamp bytes and 1 ms resolution) is reachable with untruncated
adjusted timestamps, and the first two metadata records of a `get` over it
reconstruct non-decreasing adjusted timestamps (60000 then 65535). -/
theorem c1_wrap_rule_and_get_monotone_amended_witness :
    ((s1State.get 8 false 0 0).2.2.1.getD 0 ⟨0, 0, 0⟩).tsBaseMs +
        ((s1State.get 8 false 0 0).2.2.1.getD 0 ⟨0, 0, 0⟩).ts *
          (s1State.timestampResolutionUs / 1000) ≤
      ((s1State.get 8 false 0 0).2.2.1.getD 1 ⟨0, 0, 0⟩).tsBaseMs +
        ((s1State.get 8 false 0 0).2.2.1.getD 1 ⟨0, 0, 0⟩).ts *
          (s1State.timestampResolutionUs / 1000) := by
  have hreach : ODSReachTs s1State := by
    refine ODSReachTs.put _ 1010500 3 [1, 244] (by decide) (by decide) ?_
    refine ODSReachTs.put _ 1010000 2 [0, 0] (by decide) (by decide) ?_
    refine ODSReachTs.put _ 1005000 1 [255, 255] (by decide) (by decide) ?_
    refine ODSReachTs.put _ 1000000 0 [234, 96] (by decide) (by decide) ?_
    exact ODSReachTs.init ODSState.initial 8 2 2 1000 (by decide)
      ODSReachTs.initial
  exact (c1_wrap_rule_and_get_monotone_amended s1State hreach 1011000 4 [2, 0]
    8 false 0 0).2 0 (by decide)
